import Mathlib

/-!
Verification development for the Tech Brief build pipeline
(`scripts/build.py`, `scripts/summarize.py`).

The Python source is shallowly embedded: pure helper functions become Lean
functions over `String` / `List Char`; the external collaborators that the
scripts call (feedparser, BeautifulSoup, sumy, hashlib, time.strftime,
slugify) are not part of the repository, so they are passed in as explicit
oracle parameters.  Python truthiness of optional strings (`None` and `""`
are falsy) is modelled explicitly.  Timestamps are modelled as `Nat`
(seconds since the epoch, `0` meaning unknown), matching the pipeline's use
of `time.mktime`/`0`.
-/

namespace TechBrief

/-! ## Basic character and list helpers -/

/-- ASCII whitespace, modelling Python's `\s` / `str.strip` on ASCII text. -/
def isSpaceChar (c : Char) : Bool :=
  c == ' ' || c == '\t' || c == '\n' || c == '\r' || c == '\x0b' || c == '\x0c'

/-- Decidable "list ends with suffix" on character lists. -/
def isSuffixL (s l : List Char) : Bool :=
  l.drop (l.length - s.length) == s

/-- Decidable list-of-chars "starts with" check. -/
def isPrefixL : List Char → List Char → Bool
  | [], _ => true
  | _ :: _, [] => false
  | a :: as, b :: bs => a == b && isPrefixL as bs

/-- Decidable substring containment, modelling Python's `needle in hay`. -/
def containsSub (needle : List Char) : List Char → Bool
  | [] => needle.isEmpty
  | c :: rest => isPrefixL needle (c :: rest) || containsSub needle rest

/-- Split a character list on a separator character (Python `str.split(sep)`). -/
def splitOnCharL (sep : Char) : List Char → List (List Char)
  | [] => [[]]
  | c :: rest =>
    let r := splitOnCharL sep rest
    if c == sep then [] :: r
    else
      match r with
      | h :: t => (c :: h) :: t
      | [] => [[c]]

/-- Python `str.strip()` on ASCII text. -/
def stripL (l : List Char) : List Char :=
  ((l.dropWhile isSpaceChar).reverse.dropWhile isSpaceChar).reverse

/-- Python truthiness for an optional string: `None` and `""` are falsy. -/
def truthy : Option String → Bool
  | none => false
  | some s => !(s == "")

/-- Python `a or b` on optional strings: `a` when truthy, else `b` as-is. -/
def pyOrOpt (a b : Option String) : Option String :=
  if truthy a then a else b

/-! ## URL parsing (model of `urllib.parse.urlparse` for the pieces used) -/

/-- Characters allowed in a URL scheme (`urllib.parse.scheme_chars`). -/
def isSchemeChar (c : Char) : Bool :=
  c.isAlphanum || c == '+' || c == '-' || c == '.'

/-- Drop a leading `scheme:` from a URL when a valid scheme is present
(first part of `urllib.parse.urlsplit`). -/
def splitSchemeL (l : List Char) : List Char :=
  let pre := l.takeWhile (fun c => c != ':')
  let post := l.dropWhile (fun c => c != ':')
  match post with
  | _ :: rest =>
    if !pre.isEmpty && pre.all isSchemeChar && (pre.headD 'a').isAlpha then rest
    else l
  | [] => l

/-- Character ending the netloc section of a URL. -/
def isNetlocEnd (c : Char) : Bool :=
  c == '/' || c == '?' || c == '#'

/-- Netloc and remainder of a URL after the optional scheme, as in
`urllib.parse.urlsplit`: a netloc is parsed only after a leading `//`. -/
def netlocAndRest (l : List Char) : List Char × List Char :=
  let r := splitSchemeL l
  match r with
  | a :: b :: rest =>
    if a == '/' && b == '/' then
      (rest.takeWhile (fun c => !isNetlocEnd c), rest.dropWhile (fun c => !isNetlocEnd c))
    else ([], r)
  | _ => ([], r)

/-- `urlparse(url).netloc`. -/
def netlocL (l : List Char) : List Char :=
  (netlocAndRest l).1

/-- `urlparse` splits `;parameters` off the last segment of the path. -/
def dropParamsL (p : List Char) : List Char :=
  match (splitOnCharL '/' p).reverse with
  | [] => p
  | lastSeg :: revRest =>
    List.intercalate ['/'] ((lastSeg.takeWhile (fun c => c != ';')) :: revRest).reverse

/-- `urlparse(url).path`: after netloc, before query/fragment, parameters split off. -/
def pathOfL (l : List Char) : List Char :=
  let rest := (netlocAndRest l).2
  dropParamsL ((rest.takeWhile (fun c => c != '#')).takeWhile (fun c => c != '?'))

/-! ## Image extension check (`_looks_like_image`) -/

/-- Recognized image extensions, from `_looks_like_image` in `build.py`. -/
def IMAGE_EXTS : List String := [".jpg", ".jpeg", ".png", ".webp", ".gif"]

/-- `_looks_like_image(url)` from `build.py`: falsy URLs never match; otherwise
the lowercased `urlparse(url).path` must end with a recognized extension. -/
def _looks_like_image (url : Option String) : Bool :=
  match url with
  | none => false
  | some u =>
    if u == "" then false
    else
      let path := (pathOfL u.data).map Char.toLower
      IMAGE_EXTS.any (fun ext => isSuffixL ext.data path)

/-! ## Trust filter (`SAFE_IMAGE_DOMAINS`, `is_safe_image`) -/

/-- The fixed allow-list from `build.py`. -/
def SAFE_IMAGE_DOMAINS : List String :=
  [ "images.unsplash.com",
    "images.pexels.com",
    "cdn.pixabay.com",
    "upload.wikimedia.org",
    "apple.com/newsroom/images",
    "samsung.com/press",
    "google.com/press" ]

/-- `is_safe_image(url)` from `build.py`.  Note that the source computes
`urlparse(url).netloc.lower().lstrip('www.')`: `str.lstrip` strips the
character *set* `{'w', '.'}` from the left, which is modelled faithfully
here with `dropWhile`. -/
def is_safe_image (url : Option String) : Bool :=
  match url with
  | none => false
  | some u =>
    if u == "" then false
    else
      let host := ((netlocL u.data).map Char.toLower).dropWhile (fun c => c == 'w' || c == '.')
      SAFE_IMAGE_DOMAINS.any (fun d => host == d.data || isSuffixL ('.' :: d.data) host)

/-- Host of a URL in the usual sense (netloc without userinfo and port,
lowercased), as `urllib.parse`'s `hostname` would give it. -/
def hostOfL (l : List Char) : List Char :=
  let n := netlocL l
  let afterAt := ((splitOnCharL '@' n).getLastD n)
  (afterAt.takeWhile (fun c => c != ':')).map Char.toLower

/-- Modelled from the spec: a URL is safe iff its *host* exactly matches, or
is a subdomain of, one of `SAFE_IMAGE_DOMAINS`.  Used to compare the code's
`is_safe_image` against the claimed characterisation. -/
def spec_host_safe (u : String) : Bool :=
  let host := hostOfL u.data
  SAFE_IMAGE_DOMAINS.any (fun d => host == d.data || isSuffixL ('.' :: d.data) host)

/-! ## `<img>` attribute extraction (`_pick_img_tag`) -/

/-- The attributes of an `<img>` tag that `_pick_img_tag` inspects. -/
structure ImgTag where
  src : Option String
  dataSrc : Option String
  dataOriginal : Option String
  srcset : Option String
deriving DecidableEq, Repr

/-- Python `str.split()`: split on whitespace runs, dropping empty pieces. -/
def splitWSL (l : List Char) : List (List Char) :=
  (l.splitOnP isSpaceChar).filter (fun w => !w.isEmpty)

/-- `_pick_img_tag(img)` from `build.py`: try `src`, `data-src`,
`data-original` (truthy values only), then the first whitespace-separated
token of `srcset`.  A truthy but all-whitespace `srcset` makes the source
raise `IndexError` (`img.get('srcset').split()[0]` on an empty split);
that exception is `Except.error ()`. -/
def _pick_img_tag (img : Option ImgTag) : Except Unit (Option String) :=
  match img with
  | none => Except.ok none
  | some t =>
    if truthy t.src then Except.ok t.src
    else if truthy t.dataSrc then Except.ok t.dataSrc
    else if truthy t.dataOriginal then Except.ok t.dataOriginal
    else if truthy t.srcset then
      match (splitWSL (t.srcset.getD "").data).head? with
      | some w => Except.ok (some (⟨w⟩ : String))
      | none => Except.error ()
    else Except.ok none

/-! ## Feed entry model and `first_image` -/

/-- One element of `media_content` / `media_thumbnail`. -/
structure MediaRef where
  url : Option String
deriving DecidableEq, Repr

/-- One enclosure attachment. -/
structure Enclosure where
  href : Option String
  url : Option String
  etype : Option String
deriving DecidableEq, Repr

/-- One `<content>` block of an entry. -/
structure ContentBlock where
  value : Option String
  contentVal : Option String
deriving DecidableEq, Repr

/-- A parsed feed entry as `build.py` accesses it (duck-typed dict access
becomes optional fields; a missing key is `none`). -/
structure RawEntry where
  title : Option String
  link : Option String
  media_content : Option (List MediaRef)
  media_thumbnail : Option (List MediaRef)
  enclosures : Option (List Enclosure)
  content : Option (List ContentBlock)
  summary : Option String
  description : Option String
  published_parsed : Option Nat
  updated_parsed : Option Nat
deriving DecidableEq, Repr

/-- Step 1 of `first_image`: first `media_content` item whose URL looks like
an image. -/
def step1 (e : RawEntry) : Option String :=
  (e.media_content.getD []).findSome? (fun m =>
    if _looks_like_image m.url then m.url else none)

/-- Step 2 of `first_image`: same check over `media_thumbnail`. -/
def step2 (e : RawEntry) : Option String :=
  (e.media_thumbnail.getD []).findSome? (fun t =>
    if _looks_like_image t.url then t.url else none)

/-- Step 3 of `first_image`: the first enclosure whose `href or url` looks
like an image or whose MIME type contains `"image"`.  The outer `Option`
records whether some enclosure matched; the inner `Option String` is the
value the source then `return`s — which is `None` when the matching
enclosure has no `href`/`url`. -/
def step3 (e : RawEntry) : Option (Option String) :=
  ((e.enclosures.getD []).find? (fun en =>
      _looks_like_image (pyOrOpt en.href en.url)
        || containsSub "image".data ((en.etype.getD "").data))).map
    (fun en => pyOrOpt en.href en.url)

/-- The loop of step 4 over the `<content>` blocks: a raising
`_pick_img_tag` aborts the whole resolver, a truthy URL is returned, a
falsy one moves to the next block. -/
def step4Go (findImg : String → Option ImgTag) : List ContentBlock → Except Unit (Option String)
  | [] => Except.ok none
  | c :: rest =>
    let html := (pyOrOpt c.value c.contentVal).getD ""
    match _pick_img_tag (findImg html) with
    | Except.error _ => Except.error ()
    | Except.ok u => if truthy u then Except.ok u else step4Go findImg rest

/-- Step 4 of `first_image`: first `<content>` block whose parsed `<img>`
yields a truthy URL.  The HTML parser (`BeautifulSoup(...).find('img')`) is
an external collaborator and is passed in as the oracle `findImg`;
`Except.ok none` means "no match, fall through", `Except.error ()` the
propagated `IndexError`. -/
def step4 (findImg : String → Option ImgTag) (e : RawEntry) : Except Unit (Option String) :=
  step4Go findImg (e.content.getD [])

/-- Step 5 of `first_image`: the entry's `summary or description` HTML,
parsed the same way; only a truthy URL is returned, and a raising
`_pick_img_tag` propagates. -/
def step5 (findImg : String → Option ImgTag) (e : RawEntry) : Except Unit (Option String) :=
  let desc := (pyOrOpt e.summary e.description).getD ""
  if desc == "" then Except.ok none
  else
    match _pick_img_tag (findImg desc) with
    | Except.error _ => Except.error ()
    | Except.ok u => if truthy u then Except.ok u else Except.ok none

/-- `first_image(entry)` from `build.py`: the five candidate sources in
order, returning at the first match.  A step-3 match returns the
enclosure's (possibly missing) URL directly, without consulting steps 4-5;
an `IndexError` raised inside step 4 or 5 propagates out
(`Except.error ()`). -/
def first_image (findImg : String → Option ImgTag) (e : RawEntry) :
    Except Unit (Option String) :=
  match step1 e with
  | some u => Except.ok (some u)
  | none =>
    match step2 e with
    | some u => Except.ok (some u)
    | none =>
      match step3 e with
      | some r => Except.ok r
      | none =>
        match step4 findImg e with
        | Except.error _ => Except.error ()
        | Except.ok (some u) => Except.ok (some u)
        | Except.ok none => step5 findImg e

/-- The image value `build_category` stores for an entry.  When
`first_image` raises (a truthy all-whitespace `srcset`), the real build
aborts with an uncaught exception and returns no item list at all, so no
claim about the returned list constrains such a run; the total model
records `none` there. -/
def imageOf (findImg : String → Option ImgTag) (e : RawEntry) : Option String :=
  match first_image findImg e with
  | Except.ok r => r
  | Except.error _ => none

/-! ## Category image pools and copyright-safe substitution -/

/-- Lookup in an association list with a default (`dict.get(k, d)`). -/
def lookupD {α : Type} (m : List (String × α)) (k : String) (d : α) : α :=
  match m.find? (fun p => p.1 == k) with
  | some p => p.2
  | none => d

/-- `CATEGORY_IMAGE_POOLS` from `build.py` (insertion-ordered dict as an
association list). -/
def CATEGORY_IMAGE_POOLS : List (String × List String) :=
  [ ("ai-news",
     [ "photo-1677442135703-1787eea5ce01", "photo-1620712943543-bcc4688e7485",
       "photo-1655635643532-fa9ba2648cbe", "photo-1533228100845-08145b01de14",
       "photo-1558494949-ef010cbdcc31", "photo-1635070041078-e363dbe005cb",
       "photo-1501526029524-a8ea952b15be", "photo-1531297484001-80022131f5a1",
       "photo-1504639725590-34d0984388bd", "photo-1518770660439-4636190af475",
       "photo-1526374965328-7f61d4dc18c5", "photo-1510511459019-5dda7724fd87" ]),
    ("enterprise-tech",
     [ "photo-1486312338219-ce68d2c6f44d", "photo-1497366216548-37526070297c",
       "photo-1568952433726-3896e3881c65", "photo-1553877522-43269d4ea984",
       "photo-1542744094-3a31f272c490", "photo-1521737711867-e3b97375f902",
       "photo-1600880292203-757bb62b4baf", "photo-1454165804606-c3d57bc86b40",
       "photo-1507679799987-c73779587ccf", "photo-1560472354-b33ff0c44a43",
       "photo-1530099486328-e021101a494a", "photo-1661956602116-aa6865609028" ]),
    ("cybersecurity-updates",
     [ "photo-1550751827-4bd374c3f58b", "photo-1563986768609-322da13575f3",
       "photo-1614064641938-3bbee52942c7", "photo-1510511233900-1982d92bd835",
       "photo-1555949963-aa79dcee981c", "photo-1504384308090-c894fdcc538d",
       "photo-1516321318423-f06f85e504b3", "photo-1544197150-b99a580bb7a8",
       "photo-1573164713988-8665fc963095", "photo-1603808033192-082d6919d3e1",
       "photo-1569396116180-210c182bedb8", "photo-1591696205602-2f950c417cb9" ]),
    ("mobile-gadgets",
     [ "photo-1511707171634-5f897ff02aa9", "photo-1592750475338-74b7b21085ab",
       "photo-1585060544812-6b45742d762f", "photo-1523206489230-c012c64b2b48",
       "photo-1567581935884-3349723552ca", "photo-1542751371-adc38448a05e",
       "photo-1525547719571-a2d4ac8945e2", "photo-1616348436168-de43ad0db179",
       "photo-1565849904461-04a58ad377e0", "photo-1601784551446-20c9e07cdbdb",
       "photo-1583394838336-acd977736f90", "photo-1570891836654-d4590d13d073" ]),
    ("consumer-tech",
     [ "photo-1498049794561-7780e7231661", "photo-1517694712202-14dd9538aa97",
       "photo-1593642632559-0c6d3fc62b89", "photo-1519389950473-47ba0277781c",
       "photo-1496181133206-80ce9b88a853", "photo-1504707748692-419802cf939d",
       "photo-1550009158-9ebf69173e03", "photo-1587829741301-dc798b83add3",
       "photo-1484788984921-03950022c9ef", "photo-1547658719-da2b51169166",
       "photo-1560472355-536de3962603", "photo-1468495244123-6c6c332eeece" ]),
    ("broadcast-tech",
     [ "photo-1478737270239-2f02b77fc618", "photo-1612420696760-0a0f34d3e7d0",
       "photo-1567095761054-7003afd47020", "photo-1598488035139-bdbb2231ce04",
       "photo-1478737270239-2f02b77fc618", "photo-1516321497487-e288fb19713f",
       "photo-1574717024653-61fd2cf4d44d", "photo-1590602847861-f357a9332bbc",
       "photo-1492619375914-88005aa9e8fb", "photo-1611532736597-de2d4265fba3",
       "photo-1623039405147-547794f92e9e", "photo-1540575467063-178a50c2df87" ]),
    ("gaming",
     [ "photo-1538481199705-c710c4e965fc", "photo-1493711662062-fa541adb3fc8",
       "photo-1552820728-8b83bb6b773f", "photo-1601887389937-0b02f7683064",
       "photo-1612287230202-1ff1d85d1bdf", "photo-1511512578047-dfb367046420",
       "photo-1574375927938-d5a98e8ffe85", "photo-1580327344181-c1163234e5a0",
       "photo-1606144042614-b2417e99c4e3", "photo-1560419015-7c427e8ae5ba",
       "photo-1586182987320-4f376d39d787", "photo-1569429593410-b498b3fb3387" ]),
    ("evs-automotive",
     [ "photo-1593941707882-a5bba14938c7", "photo-1558618666-fcd25c85cd64",
       "photo-1616455579100-2ceaa4eb2d37", "photo-1549317661-bd32c8ce0db2",
       "photo-1502161254119-e1f02c5b5e4b", "photo-1568605117036-5fe5e7bab0b7",
       "photo-1580274455191-1c62238fa1f4", "photo-1617469767053-d3b523a0b982",
       "photo-1590362891991-f776e747a588", "photo-1606016159991-dfe4f2746ad5",
       "photo-1571987502227-9231b837d92a", "photo-1583121274602-3e2820c69888" ]),
    ("startups-business",
     [ "photo-1559136555-9303baea8ebd", "photo-1507003211169-0a1dd7228f2d",
       "photo-1600880292203-757bb62b4baf", "photo-1450101499163-c8848c66ca85",
       "photo-1460925895917-afdab827c52f", "photo-1553484771-371a605b060b",
       "photo-1579532537598-459ecdaf39cc", "photo-1521737604893-d14cc237f11d",
       "photo-1537511446984-935f663eb1f4", "photo-1486406146926-c627a92ad1ab",
       "photo-1573164713714-d95e436ab8d6", "photo-1444653389962-8149286c578a" ]),
    ("default",
     [ "photo-1518770660439-4636190af475", "photo-1531297484001-80022131f5a1",
       "photo-1504639725590-34d0984388bd", "photo-1519389950473-47ba0277781c",
       "photo-1498049794561-7780e7231661", "photo-1550751827-4bd374c3f58b",
       "photo-1526374965328-7f61d4dc18c5", "photo-1480944657103-7fed22359e1d",
       "photo-1488229297570-58520851e868", "photo-1451187580459-43490279c0fa",
       "photo-1516321318423-f06f85e504b3", "photo-1558494949-ef010cbdcc31" ]) ]

/-- `CATEGORY_IMAGE_POOLS.get(category_slug, CATEGORY_IMAGE_POOLS['default'])`. -/
def poolFor (slug : String) : List String :=
  lookupD CATEGORY_IMAGE_POOLS slug (lookupD CATEGORY_IMAGE_POOLS "default" [])

/-- The substitute image URL built from a pool photo id
(`f'https://images.unsplash.com/{photo_id}?w=800&auto=format&fit=crop'`). -/
def mkPoolUrl (photoId : String) : String :=
  "https://images.unsplash.com/" ++ photoId ++ "?w=800&auto=format&fit=crop"

/-- `copyright_safe_image(url, category_slug, article_key)` from `build.py`.
`hashlib.md5` is external, so the integer value of the hex digest is passed
in as the oracle `md5int`. -/
def copyright_safe_image (md5int : String → Nat) (url : Option String)
    (category_slug : String) (article_key : String) : String :=
  if is_safe_image url then url.getD ""
  else
    let pool := poolFor category_slug
    let seed := if article_key == "" then category_slug else article_key
    let idx := md5int seed % pool.length
    mkPoolUrl (pool.getD idx "")

/-! ## Display items and `assign_unique_images` -/

/-- A DisplayItem as built by `build_category` (one dict per card). -/
structure Item where
  title : String
  link : String
  source : String
  summary : String
  image : Option String
  ts : Nat
  date : String
  category : String
  commentary : String
deriving DecidableEq, Repr

/-- The loop body of `assign_unique_images`, carrying the pool cursor;
returns the rewritten items together with the final cursor value. -/
def assignGoC (pool : List String) (cursor : Nat) : List Item → List Item × Nat
  | [] => ([], cursor)
  | it :: rest =>
    if is_safe_image it.image then
      let r := assignGoC pool cursor rest
      ({ it with image := it.image } :: r.1, r.2)
    else
      let r := assignGoC pool (cursor + 1) rest
      ({ it with image := some (mkPoolUrl (pool.getD (cursor % pool.length) "")) } :: r.1, r.2)

/-- `assign_unique_images(items, category_slug)` from `build.py`. -/
def assign_unique_images (items : List Item) (category_slug : String) : List Item :=
  (assignGoC (poolFor category_slug) 0 items).1

/-- The images assigned to the unsafe-image items, in processing order. -/
def substImages (items : List Item) (category_slug : String) : List (Option String) :=
  ((items.zip (assign_unique_images items category_slug)).filter
      (fun p => !is_safe_image p.1.image)).map (fun p => p.2.image)

/-! ## Timestamps -/

/-- `parse_time(entry)` from `build.py`: `published_parsed` else
`updated_parsed` else `0`.  The parsed structs are modelled as their
`time.mktime` values in seconds. -/
def parse_time (e : RawEntry) : Nat :=
  match e.published_parsed with
  | some t => t
  | none =>
    match e.updated_parsed with
    | some t => t
    | none => 0

/-- `fmt_date(ts)` from `build.py`; `time.strftime`/`localtime` are
external and passed as the oracle `strftime`. -/
def fmt_date (strftime : Nat → String) (ts : Nat) : String :=
  if ts == 0 then "" else strftime ts

/-! ## Sentence splitting and the summarizer -/

/-- Sentence-terminal punctuation of the fallback splitter. -/
def isTermChar (c : Char) : Bool :=
  c == '.' || c == '!' || c == '?'

/-- `re.split(r'(?<=[.!?])\s+', text)`: split after terminal punctuation
followed by a whitespace run, the run being consumed. -/
def split_sentences : List Char → List (List Char)
  | [] => [[]]
  | [c] => [[c]]
  | c :: d :: rest =>
    if isTermChar c && isSpaceChar d then
      [c] :: split_sentences (rest.dropWhile isSpaceChar)
    else
      match split_sentences (d :: rest) with
      | p :: ps => (c :: p) :: ps
      | [] => [[c]]
termination_by l => l.length
decreasing_by
  · simp only [List.length_cons]
    have h : ∀ (l : List Char), (l.dropWhile isSpaceChar).length ≤ l.length := by
      intro l
      induction l with
      | nil => simp [List.dropWhile]
      | cons c r ih => simp only [List.dropWhile]; cases isSpaceChar c <;> simp <;> omega
    have := h rest
    omega
  · simp

/-- `' '.join(parts)`. -/
def joinSp (ps : List (List Char)) : List Char :=
  List.intercalate [' '] ps

/-- Number of sentences in a text, counted with the same splitter the
fallback uses (empty fragments do not count). -/
def countSentences (l : List Char) : Nat :=
  ((split_sentences l).filter (fun p => !p.isEmpty)).length

/-- The fallback branch of `summarize_text` in `build.py`:
`parts = re.split(...); joined = ' '.join(parts[:n]); return joined if
joined else text[:280]` (the argument is the already-stripped text). -/
def summarize_fallback (t : List Char) (n : Nat) : List Char :=
  let parts := split_sentences t
  let joined := joinSp (parts.take n)
  if joined.isEmpty then t.take 280 else joined

/-- `summarize_text(text, sentences)` from `build.py`.  The sumy TextRank
pipeline is external; it is the oracle `primary`, returning the selected
sentences or failing (any exception in the `try` block). -/
def summarize_text (primary : List Char → Nat → Except Unit (List (List Char)))
    (text : List Char) (n : Nat) : List Char :=
  let t := stripL text
  if t.isEmpty then []
  else
    match primary t n with
    | Except.ok res => if res.isEmpty then summarize_fallback t n else joinSp res
    | Except.error _ => summarize_fallback t n

/-- The fallback branch of `summarize_text` in `summarize.py`, whose
truncation adds a `…` when the text was longer than 280 characters. -/
def summarize_fallback_standalone (t : List Char) (n : Nat) : List Char :=
  let parts := split_sentences t
  let joined := joinSp (parts.take n)
  if joined.isEmpty then t.take 280 ++ (if 280 < t.length then ['…'] else []) else joined

/-- `summarize_text(text, sentences, language)` from `summarize.py`; it
differs from the `build.py` copy only in the truncation branch. -/
def summarize_text_standalone (primary : List Char → Nat → Except Unit (List (List Char)))
    (text : List Char) (n : Nat) : List Char :=
  let t := stripL text
  if t.isEmpty then []
  else
    match primary t n with
    | Except.ok res => if res.isEmpty then summarize_fallback_standalone t n else joinSp res
    | Except.error _ => summarize_fallback_standalone t n

/-! ## Text normalisation (`clean_text`) -/

/-- `re.sub(r"\s+", " ", txt)`: collapse whitespace runs to single spaces. -/
def squeezeWS : List Char → List Char
  | [] => []
  | c :: rest =>
    if isSpaceChar c then ' ' :: squeezeWS (rest.dropWhile isSpaceChar)
    else c :: squeezeWS rest
termination_by l => l.length
decreasing_by
  · simp only [List.length_cons]
    have h : ∀ (l : List Char), (l.dropWhile isSpaceChar).length ≤ l.length := by
      intro l
      induction l with
      | nil => simp [List.dropWhile]
      | cons c r ih => simp only [List.dropWhile]; cases isSpaceChar c <;> simp <;> omega
    have := h rest
    omega
  · simp

/-- `clean_text(html)` from `build.py`: `BeautifulSoup(html or '',
'html.parser').get_text(' ')` (the oracle `getText`), then whitespace
collapsing and stripping. -/
def clean_text (getText : String → String) (html : Option String) : String :=
  ⟨stripL (squeezeWS (getText ((pyOrOpt html none).getD "")).data)⟩

/-! ## Category builder -/

/-- A parsed feed: `feed.feed.title` and `feed.entries`. -/
structure Feed where
  ftitle : Option String
  entries : List RawEntry
deriving Repr

/-- Category metadata from `data/meta.json` (only the slug matters for the
returned item list; `build.py` reads `meta['slug']`). -/
structure MetaEntry where
  slug : Option String
deriving DecidableEq, Repr

/-- The external collaborators of the pipeline, passed explicitly:
`feedparser.parse`, `BeautifulSoup(...).get_text`, `BeautifulSoup(...)
.find('img')`, the sumy summarizer, `time.strftime` and `slugify`. -/
structure Ext where
  fetch : String → Except String Feed
  getText : String → String
  findImg : String → Option ImgTag
  primary : List Char → Nat → Except Unit (List (List Char))
  strftime : Nat → String
  slugifyFn : String → String

/-- The slug `build_category` resolves for a category: metadata slug when
present, else `slugify(category)` (also the default metadata's slug). -/
def resolveSlug (ext : Ext) (metaMap : List (String × MetaEntry)) (category : String) : String :=
  match (metaMap.find? (fun p => p.1 == category)).map Prod.snd with
  | some m =>
    match m.slug with
    | some s => s
    | none => ext.slugifyFn category
  | none => ext.slugifyFn category

/-- The DisplayItem `build_category` constructs from one entry. -/
def mkItem (ext : Ext) (category : String) (ftitle : Option String) (e : RawEntry) : Item :=
  let text := clean_text ext.getText (pyOrOpt e.summary e.description)
  let ts := parse_time e
  { title := e.title.getD "Untitled"
    link := e.link.getD ""
    source := ftitle.getD "Unknown"
    summary := ⟨summarize_text ext.primary text.data 2⟩
    image := imageOf ext.findImg e
    ts := ts
    date := fmt_date ext.strftime ts
    category := category
    commentary := "" }

/-- Comparison used by the `items.sort(key=lambda x: x['ts'], reverse=True)`
calls: descending by timestamp. -/
def tsGe (a b : Item) : Prop :=
  b.ts ≤ a.ts

instance : DecidableRel tsGe := fun a b => Nat.decLe b.ts a.ts

instance : IsTotal Item tsGe := ⟨fun a b => Nat.le_total b.ts a.ts⟩

instance : IsTrans Item tsGe := ⟨fun _ _ _ h1 h2 => Nat.le_trans h2 h1⟩

/-- `build_category(category, urls)` from `build.py`, up to the returned
item list (template rendering and the file write are presentation-only and
consume the same list).  A feed whose fetch raises is skipped; each feed
contributes at most 12 entries; items are sorted by timestamp descending
(`List.insertionSort` is a stable sort, extensionally equal to Python's
stable `list.sort`); images are then re-resolved per the category slug. -/
def build_category (ext : Ext) (metaMap : List (String × MetaEntry))
    (category : String) (urls : List String) : List Item :=
  let items := urls.flatMap (fun url =>
    match ext.fetch url with
    | Except.error _ => []
    | Except.ok feed => (feed.entries.take 12).map (mkItem ext category feed.ftitle))
  let sorted := items.insertionSort tsGe
  assign_unique_images sorted (resolveSlug ext metaMap category)

/-! ## Home builder -/

/-- `CATEGORY_ORDER` from `build_home`. -/
def CATEGORY_ORDER : List String :=
  [ "AI News", "Startups & Business", "Mobile & Gadgets", "Consumer Tech",
    "Cybersecurity Updates", "Enterprise Tech", "Broadcast Tech", "Gaming",
    "EVs & Automotive" ]

/-- The stream of candidate cards `build_home` walks: up to 3 items per
category in `CATEGORY_ORDER`, then up to 3 per remaining category in map
order. -/
def sweepSeq (category_map : List (String × List Item)) : List Item :=
  (CATEGORY_ORDER.flatMap (fun cat => (lookupD category_map cat []).take 3))
    ++ ((category_map.filter (fun p => !CATEGORY_ORDER.contains p.1)).flatMap
        (fun p => p.2.take 3))

/-- The link-dedup filter of `build_home` (`seen` is the set of links
already selected; Python checks membership before appending). -/
def dedupByLink : List Item → List String → List Item
  | [], _ => []
  | x :: xs, seen =>
    if x.link ∈ seen then dedupByLink xs seen
    else x :: dedupByLink xs (x.link :: seen)

/-- `all_cards` of `build_home` before the final sort. -/
def homeCards (category_map : List (String × List Item)) : List Item :=
  dedupByLink (sweepSeq category_map) []

/-- `build_home(category_map)` from `build.py`, up to the rendered card
list: deduplicated sweep, stable sort by timestamp descending, first 27. -/
def build_home (category_map : List (String × List Item)) : List Item :=
  ((homeCards category_map).insertionSort tsGe).take 27

/-! ## Concrete inputs used by counterexamples and witnesses -/

/-- An entry whose only enclosure declares an image MIME type but carries no
`href`/`url`, while the summary embeds a perfectly good image. -/
def cexEntry : RawEntry :=
  { title := none, link := none, media_content := none, media_thumbnail := none,
    enclosures := some [{ href := none, url := none, etype := some "image/png" }],
    content := none, summary := some "<img src=x.jpg>", description := none,
    published_parsed := none, updated_parsed := none }

/-- HTML-parser oracle recognising `cexEntry`'s summary. -/
def cexFindImg : String → Option ImgTag := fun s =>
  if s == "<img src=x.jpg>" then
    some { src := some "x.jpg", dataSrc := none, dataOriginal := none, srcset := none }
  else none

/-- An entry carrying both a media-content image and a summary-embedded
image. -/
def prioEntry : RawEntry :=
  { title := none, link := none,
    media_content := some [{ url := some "https://m.example.com/a.jpg" }],
    media_thumbnail := none, enclosures := none, content := none,
    summary := some "<img src=b.jpg>", description := none,
    published_parsed := none, updated_parsed := none }

/-- HTML-parser oracle recognising `prioEntry`'s summary. -/
def prioFindImg : String → Option ImgTag := fun s =>
  if s == "<img src=b.jpg>" then
    some { src := some "b.jpg", dataSrc := none, dataOriginal := none, srcset := none }
  else none

/-- An item with the given image and everything else fixed. -/
def sampleItem (img : Option String) : Item :=
  { title := "t", link := "l", source := "s", summary := "", image := img,
    ts := 0, date := "", category := "c", commentary := "" }

/-- Pointwise relation between an input item and its rewritten version:
every field except `image` is unchanged, and a safe image leaves the whole
item unchanged. -/
def frameRel (a b : Item) : Prop :=
  b.title = a.title ∧ b.link = a.link ∧ b.source = a.source ∧ b.summary = a.summary
    ∧ b.ts = a.ts ∧ b.date = a.date ∧ b.category = a.category ∧ b.commentary = a.commentary
    ∧ (is_safe_image a.image = true → b = a)

/-- A minimal item for home-builder scenarios: title and link are the given
name. -/
def cxItem (nm : String) (t : Nat) : Item :=
  { title := nm, link := nm, source := "", summary := "", image := none,
    ts := t, date := "", category := "", commentary := "" }

/-- A category map on which the link `"dup"` sits in the top-3 of two
categories while 28 newer cards fill the page. -/
def cexHomeMap : List (String × List Item) :=
  [ ("AI News", [cxItem "dup" 0, cxItem "a1" 30, cxItem "a2" 29]),
    ("Startups & Business", [cxItem "b1" 28, cxItem "b2" 27, cxItem "b3" 26]),
    ("Mobile & Gadgets", [cxItem "c1" 25, cxItem "c2" 24, cxItem "c3" 23]),
    ("Consumer Tech", [cxItem "d1" 22, cxItem "d2" 21, cxItem "d3" 20]),
    ("Cybersecurity Updates", [cxItem "e1" 19, cxItem "e2" 18, cxItem "e3" 17]),
    ("Enterprise Tech", [cxItem "f1" 16, cxItem "f2" 15, cxItem "f3" 14]),
    ("Broadcast Tech", [cxItem "g1" 13, cxItem "g2" 12, cxItem "g3" 11]),
    ("Gaming", [cxItem "dup" 0, cxItem "h2" 10, cxItem "h3" 9]),
    ("EVs & Automotive", [cxItem "i1" 8, cxItem "i2" 7, cxItem "i3" 6]),
    ("Extra", [cxItem "j1" 5, cxItem "j2" 4, cxItem "j3" 3]) ]

/-- A two-category map sharing one link, for the C4 witness. -/
def witHomeMap : List (String × List Item) :=
  [ ("AI News", [cxItem "shared" 5]),
    ("Gaming", [cxItem "shared" 3, cxItem "g9" 9]) ]

/-- The feed used by the C5 witness: entries with timestamps 100, 50 and
unknown, in feed order. -/
def witFeed : Feed :=
  { ftitle := some "Feed A",
    entries :=
      [ { title := some "E1", link := some "l1", media_content := none,
          media_thumbnail := none, enclosures := none, content := none,
          summary := none, description := none,
          published_parsed := some 100, updated_parsed := none },
        { title := some "E2", link := some "l2", media_content := none,
          media_thumbnail := none, enclosures := none, content := none,
          summary := none, description := none,
          published_parsed := some 50, updated_parsed := none },
        { title := some "E3", link := some "l3", media_content := none,
          media_thumbnail := none, enclosures := none, content := none,
          summary := none, description := none,
          published_parsed := none, updated_parsed := none } ] }

/-- Concrete collaborators for the C5 witness. -/
def witExt : Ext :=
  { fetch := fun _ => Except.ok witFeed,
    getText := fun s => s,
    findImg := fun _ => none,
    primary := fun _ _ => Except.error (),
    strftime := fun _ => "January 01, 1970",
    slugifyFn := fun s => s }

/-- No position in the text where terminal punctuation is followed by
whitespace: the splitter leaves such a fragment in one piece. -/
def noBoundaryPair : List Char → Bool
  | [] => true
  | [_] => true
  | c :: d :: rest => !(isTermChar c && isSpaceChar d) && noBoundaryPair (d :: rest)

/-- Whether a fragment ends with sentence-terminal punctuation. -/
def endsTermL (l : List Char) : Bool :=
  match l.getLast? with
  | some c => isTermChar c
  | none => false

/-- Whether a fragment starts with a non-whitespace character (an empty
fragment counts as true). -/
def startsNonSpace (l : List Char) : Bool :=
  match l with
  | [] => true
  | c :: _ => !isSpaceChar c

/-- Number of non-empty fragments. -/
def countNE (ps : List (List Char)) : Nat :=
  (ps.filter (fun p => !p.isEmpty)).length

/-- All fragments except possibly the last are non-empty. -/
def innerNE : List (List Char) → Prop
  | [] => True
  | f :: rest => (rest = [] ∨ f ≠ []) ∧ innerNE rest

/-! ## C1 — trust filter -/

/-- C1: the claim states `is_safe_image` is true iff the URL's host equals
or is a subdomain of an allow-listed domain.  The code is wrong: it calls
`lstrip('www.')`, which strips the character set `{'w', '.'}`, so the host
`wwimages.unsplash.com` — neither an allow-listed domain nor a subdomain of
one — is accepted as safe.  The claim's two concrete examples do hold, and
the unsafe URL is indeed replaced by the substitution step. -/
theorem C1_trust_filter_code_bug :
    is_safe_image (some "https://wwimages.unsplash.com/a.jpg") = true
  ∧ spec_host_safe "https://wwimages.unsplash.com/a.jpg" = false
  ∧ is_safe_image (some "https://images.unsplash.com/photo-x") = true
  ∧ spec_host_safe "https://images.unsplash.com/photo-x" = true
  ∧ is_safe_image (some "https://random-blog.example.com/img.jpg") = false
  ∧ spec_host_safe "https://random-blog.example.com/img.jpg" = false
  ∧ (assign_unique_images [sampleItem (some "https://random-blog.example.com/img.jpg")]
        "ai-news").map Item.image
      = [some "https://images.unsplash.com/photo-1677442135703-1787eea5ce01?w=800&auto=format&fit=crop"] := by
  decide

/-! ## C8 — image extension check -/

/-- C8: `_looks_like_image` matches exactly when the lowercased
`urlparse` path of the URL ends with one of the five recognized image
extensions; a URL ending `.png?size=800` (query ignored, case-insensitive)
matches, and a `.pdf` URL never matches. -/
theorem C8_extension_check :
    (∀ u : String, _looks_like_image (some u)
        = IMAGE_EXTS.any (fun ext => isSuffixL ext.data ((pathOfL u.data).map Char.toLower)))
  ∧ _looks_like_image (some "https://cdn.example.com/pic.PNG?size=800") = true
  ∧ _looks_like_image (some "https://cdn.example.com/doc.pdf") = false := by
  refine ⟨?_, by decide, by decide⟩
  intro u
  by_cases h : u = ""
  · subst h; decide
  · simp [_looks_like_image, h]

/-! ## C6 — deterministic substitution -/

/-- C6: `copyright_safe_image` is deterministic — for unsafe URLs the
replacement depends only on the (article key, category slug) pair, and it
is the pool entry at the md5 hash of the key modulo the pool size. -/
theorem C6_deterministic_substitution (md5int : String → Nat) (u1 u2 : Option String)
    (slug key : String) (h1 : is_safe_image u1 = false) (h2 : is_safe_image u2 = false) :
    copyright_safe_image md5int u1 slug key = copyright_safe_image md5int u2 slug key
  ∧ copyright_safe_image md5int u1 slug key
      = mkPoolUrl ((poolFor slug).getD
          (md5int (if key == "" then slug else key) % (poolFor slug).length) "") := by
  simp [copyright_safe_image, h1, h2]

/-- Witness for C6 at concrete unsafe URLs. -/
theorem C6_deterministic_substitution_witness :
    is_safe_image (some "https://random-blog.example.com/img.jpg") = false
  ∧ is_safe_image (some "https://other.example.org/pic.png") = false
  ∧ copyright_safe_image (fun s => s.length)
        (some "https://random-blog.example.com/img.jpg") "gaming" "https://article/1"
      = copyright_safe_image (fun s => s.length)
        (some "https://other.example.org/pic.png") "gaming" "https://article/1" :=
  ⟨by decide, by decide,
    (C6_deterministic_substitution (fun s => s.length)
      (some "https://random-blog.example.com/img.jpg")
      (some "https://other.example.org/pic.png")
      "gaming" "https://article/1" (by decide) (by decide)).1⟩

/-! ## C9 — image re-resolution is the only mutation -/

/-- The loop of `assign_unique_images` relates input and output items
pointwise by `frameRel`, for any cursor. -/
theorem assignGoC_forall2 (pool : List String) (items : List Item) :
    ∀ c : Nat, List.Forall₂ frameRel items (assignGoC pool c items).1 := by
  induction items with
  | nil => intro c; simp [assignGoC]
  | cons it rest ih =>
    intro c
    by_cases h : is_safe_image it.image = true
    · simp only [assignGoC, h, if_true]
      exact List.Forall₂.cons ⟨rfl, rfl, rfl, rfl, rfl, rfl, rfl, rfl, fun _ => rfl⟩ (ih c)
    · simp only [assignGoC, h, if_false]
      refine List.Forall₂.cons ⟨rfl, rfl, rfl, rfl, rfl, rfl, rfl, rfl, fun hh => absurd hh h⟩
        (ih (c + 1))

/-- C9: `assign_unique_images` preserves the length and order of the item
list and every field but `image`; items whose image is safe pass through
completely unchanged. -/
theorem C9_frame_effect (items : List Item) (slug : String) :
    (assign_unique_images items slug).length = items.length
  ∧ List.Forall₂ frameRel items (assign_unique_images items slug) := by
  have h := assignGoC_forall2 (poolFor slug) items 0
  exact ⟨(List.Forall₂.length_eq h).symm, h⟩

/-! ## C2 — image resolver priority -/

/-- C2 (amended): `first_image` tries the five steps in strict priority
order and returns at the first match: a step-1 match wins outright (so
media-content beats a summary-embedded image), step 2 is consulted only
when step 1 fails, and so on; a step-3 match returns the enclosure's
possibly-missing URL at once.  `None` is returned iff steps 1 and 2 fail
and either an enclosure matched by MIME type alone while both its URL
fields are falsy, or steps 3, 4 and 5 all fail to match; and the resolver
raises (the whitespace-only-`srcset` `IndexError`) iff steps 1-3 fail and
step 4 raises, or step 4 falls through and step 5 raises. -/
theorem C2_priority_amended (findImg : String → Option ImgTag) (e : RawEntry) :
    (∀ u, step1 e = some u → first_image findImg e = Except.ok (some u))
  ∧ (step1 e = none → ∀ u, step2 e = some u →
      first_image findImg e = Except.ok (some u))
  ∧ (step1 e = none → step2 e = none → ∀ r, step3 e = some r →
      first_image findImg e = Except.ok r)
  ∧ (step1 e = none → step2 e = none → step3 e = none →
      ∀ u, step4 findImg e = Except.ok (some u) →
        first_image findImg e = Except.ok (some u))
  ∧ (step1 e = none → step2 e = none → step3 e = none →
      step4 findImg e = Except.ok none →
        first_image findImg e = step5 findImg e)
  ∧ (first_image findImg e = Except.ok none ↔
      step1 e = none ∧ step2 e = none ∧
        (step3 e = some none ∨
          (step3 e = none ∧ step4 findImg e = Except.ok none
            ∧ step5 findImg e = Except.ok none)))
  ∧ (first_image findImg e = Except.error () ↔
      step1 e = none ∧ step2 e = none ∧ step3 e = none ∧
        (step4 findImg e = Except.error () ∨
          (step4 findImg e = Except.ok none ∧ step5 findImg e = Except.error ()))) := by
  cases h1 : step1 e with
  | some u => simp [first_image, h1]
  | none =>
    cases h2 : step2 e with
    | some u => simp [first_image, h1, h2]
    | none =>
      cases h3 : step3 e with
      | some r =>
        cases r with
        | some u => simp [first_image, h1, h2, h3]
        | none => simp [first_image, h1, h2, h3]
      | none =>
        cases h4 : step4 findImg e with
        | error e4 =>
          cases e4
          simp [first_image, h1, h2, h3, h4]
        | ok u4 =>
          cases u4 with
          | some u => simp [first_image, h1, h2, h3, h4]
          | none =>
            cases h5 : step5 findImg e with
            | error e5 =>
              cases e5
              simp [first_image, h1, h2, h3, h4, h5]
            | ok u5 =>
              cases u5 with
              | some u => simp [first_image, h1, h2, h3, h4, h5]
              | none => simp [first_image, h1, h2, h3, h4, h5]

/-- Witness for C2: on `prioEntry` the media-content URL wins over the
summary-embedded one. -/
theorem C2_priority_amended_witness :
    first_image prioFindImg prioEntry = Except.ok (some "https://m.example.com/a.jpg") :=
  (C2_priority_amended prioFindImg prioEntry).1 "https://m.example.com/a.jpg" (by decide)

/-- Counterexample to C2 as stated: on `cexEntry` the resolver returns
None although step 5 would yield an image URL — "none iff all steps fail"
is violated (the MIME-matched enclosure without URL returns early). -/
theorem C2_counterexample :
    first_image cexFindImg cexEntry = Except.ok none
  ∧ step5 cexFindImg cexEntry = Except.ok (some "x.jpg") :=
  ⟨rfl, rfl⟩

/-! ## C3 — rotating cursor gives distinct consecutive pool images -/

/-- Every pool defined in the code has 12 entries and no two *adjacent*
entries (cyclically) produce the same substitute URL.  (The
`broadcast-tech` pool does repeat a photo id, but only at distance 4.) -/
theorem pools_adjacent_ok :
    ∀ p ∈ CATEGORY_IMAGE_POOLS.map Prod.snd,
      p.length = 12 ∧ ∀ i < 12, mkPoolUrl (p.getD i "") ≠ mkPoolUrl (p.getD ((i + 1) % 12) "") := by
  decide

/-- `poolFor` always returns one of the pools defined in the code. -/
theorem poolFor_mem (slug : String) :
    poolFor slug ∈ CATEGORY_IMAGE_POOLS.map Prod.snd := by
  unfold poolFor lookupD
  cases h : CATEGORY_IMAGE_POOLS.find? (fun p => p.1 == slug) with
  | some p =>
    exact List.mem_map_of_mem Prod.snd (List.mem_of_find?_eq_some h)
  | none =>
    show lookupD CATEGORY_IMAGE_POOLS "default" [] ∈ _
    decide

/-- Adjacent cursor values always select different substitute URLs, for any
pool of the code. -/
theorem pool_adjacent_distinct (p : List String)
    (hp : p ∈ CATEGORY_IMAGE_POOLS.map Prod.snd) (m : Nat) :
    mkPoolUrl (p.getD (m % p.length) "") ≠ mkPoolUrl (p.getD ((m + 1) % p.length) "") := by
  obtain ⟨hlen, hadj⟩ := pools_adjacent_ok p hp
  rw [hlen]
  have h1 : (m + 1) % 12 = (m % 12 + 1) % 12 := by
    conv_lhs => rw [Nat.add_mod]
  rw [h1]
  exact hadj (m % 12) (Nat.mod_lt _ (by omega))

/-- The cursor of `assign_unique_images` counts exactly the substitutions
made: it advances only when an item's image is unsafe. -/
theorem assignGoC_cursor (pool : List String) (items : List Item) :
    ∀ c : Nat, (assignGoC pool c items).2
      = c + items.countP (fun it => !is_safe_image it.image) := by
  induction items with
  | nil => intro c; simp [assignGoC]
  | cons it rest ih =>
    intro c
    by_cases h : is_safe_image it.image = true
    · simp only [assignGoC, h, if_true, List.countP_cons, Bool.not_true, ih c]
      simp
    · have hb : is_safe_image it.image = false := by
        cases hx : is_safe_image it.image
        · rfl
        · exact absurd hx h
      simp only [assignGoC, hb, Bool.false_eq_true, if_false, List.countP_cons, Bool.not_false,
        ih (c + 1)]
      simp
      omega

/-- The images handed to the unsafe-image items are successive pool entries
starting at the cursor. -/
theorem assignGoC_substImages (pool : List String) (items : List Item) :
    ∀ c : Nat,
      ((items.zip (assignGoC pool c items).1).filter
          (fun p => !is_safe_image p.1.image)).map (fun p => p.2.image)
        = (List.range (items.countP (fun it => !is_safe_image it.image))).map
            (fun i => some (mkPoolUrl (pool.getD ((c + i) % pool.length) ""))) := by
  induction items with
  | nil => intro c; simp [assignGoC]
  | cons it rest ih =>
    intro c
    by_cases h : is_safe_image it.image = true
    · simp only [assignGoC, h, if_true, List.zip_cons_cons, List.filter_cons, Bool.not_true,
        List.countP_cons]
      simp [h, ih c]
    · have hb : is_safe_image it.image = false := by
        cases hx : is_safe_image it.image
        · rfl
        · exact absurd hx h
      simp only [assignGoC, hb, Bool.false_eq_true, if_false, List.zip_cons_cons,
        List.filter_cons, List.countP_cons, hb]
      simp only [Bool.not_false, if_true, List.map_cons, ih (c + 1)]
      rw [List.range_succ_eq_map]
      simp only [List.map_cons, List.map_map, Nat.add_zero]
      congr 1
      apply List.map_congr_left
      intro i _
      simp only [Function.comp_apply]
      have he : c + 1 + i = c + Nat.succ i := by omega
      rw [he]

/-- Consecutive values of a function that never repeats on successors form
a chain of distinct adjacent elements. -/
theorem chain'_ne_map_range {α : Type} (f : Nat → α) (h : ∀ m, f m ≠ f (m + 1)) :
    ∀ (k c : Nat), List.Chain' (fun a b => a ≠ b) ((List.range k).map (fun i => f (c + i))) := by
  intro k
  induction k with
  | zero => intro c; simp
  | succ n ih =>
    intro c
    rw [List.range_succ_eq_map]
    simp only [List.map_cons, List.map_map, Nat.add_zero]
    have htail : (List.range n).map ((fun i => f (c + i)) ∘ Nat.succ)
        = (List.range n).map (fun i => f ((c + 1) + i)) := by
      apply List.map_congr_left
      intro i _
      simp only [Function.comp]
      congr 1
      omega
    rw [htail]
    apply List.Chain'.cons'
    · exact ih (c + 1)
    · intro y hy
      cases n with
      | zero => simp at hy
      | succ n2 =>
        rw [List.range_succ_eq_map] at hy
        simp only [List.map_cons, List.head?_cons, Option.mem_def, Option.some_inj] at hy
        rw [← hy]
        simpa using h c

/-- C3: within one category build the substitution cursor advances exactly
when a substitution is made, and the substitute images handed to
consecutively-processed unsafe-image items are pairwise distinct, for every
category pool defined in the code (hence for every slug). -/
theorem C3_rotating_cursor (items : List Item) (slug : String) :
    (assignGoC (poolFor slug) 0 items).2 = items.countP (fun it => !is_safe_image it.image)
  ∧ List.Chain' (fun a b => a ≠ b) (substImages items slug) := by
  constructor
  · simpa using assignGoC_cursor (poolFor slug) items 0
  · have hsub := assignGoC_substImages (poolFor slug) items 0
    unfold substImages assign_unique_images
    rw [hsub]
    exact chain'_ne_map_range
      (fun m => some (mkPoolUrl ((poolFor slug).getD (m % (poolFor slug).length) "")))
      (fun m => by simpa using pool_adjacent_distinct (poolFor slug) (poolFor_mem slug) m)
      (items.countP (fun it => !is_safe_image it.image)) 0

/-! ## Home builder dedup lemmas -/

/-- Counting items with a given link after the dedup filter: zero when the
link was already seen, else at most (and, when present, exactly) one. -/
theorem dedupByLink_countP (l : String) (xs : List Item) :
    ∀ seen : List String,
      (dedupByLink xs seen).countP (fun it => it.link == l)
        = if l ∈ seen then 0 else min 1 (xs.countP (fun it => it.link == l)) := by
  induction xs with
  | nil =>
    intro seen
    simp [dedupByLink]
  | cons x xs ih =>
    intro seen
    by_cases hx : x.link ∈ seen
    · rw [dedupByLink, if_pos hx, ih seen]
      by_cases hls : l ∈ seen
      · simp [hls]
      · have hxl : ¬(x.link == l) = true := by
          simp only [beq_iff_eq]
          intro he
          exact hls (he ▸ hx)
        simp [hls, List.countP_cons, hxl]
    · rw [dedupByLink, if_neg hx]
      by_cases hxl : x.link = l
      · subst hxl
        rw [List.countP_cons_of_pos _ _ (by simp)]
        rw [ih (x.link :: seen)]
        rw [if_pos (List.mem_cons_self x.link seen)]
        rw [if_neg hx]
        rw [List.countP_cons_of_pos _ _ (by simp)]
        omega
      · rw [List.countP_cons_of_neg _ _ (by simp [hxl])]
        rw [ih (x.link :: seen)]
        rw [List.countP_cons_of_neg _ _ (by simp [hxl])]
        by_cases hls : l ∈ seen
        · rw [if_pos hls, if_pos (List.mem_cons_of_mem _ hls)]
        · rw [if_neg hls, if_neg (by
            intro hmem
            cases List.mem_cons.mp hmem with
            | inl he => exact hxl he.symm
            | inr hs => exact hls hs)]

/-- The dedup filter keeps the first occurrence of a link: `find?` on its
output agrees with `find?` on its input for any link not yet seen. -/
theorem dedupByLink_find? (l : String) (xs : List Item) :
    ∀ seen : List String, l ∉ seen →
      (dedupByLink xs seen).find? (fun it => it.link == l)
        = xs.find? (fun it => it.link == l) := by
  induction xs with
  | nil => intro seen _; simp [dedupByLink]
  | cons x xs ih =>
    intro seen hl
    by_cases hx : x.link ∈ seen
    · have hxl : ¬(x.link == l) = true := by
        simp only [beq_iff_eq]
        intro he
        exact hl (he ▸ hx)
      rw [dedupByLink, if_pos hx,
        @List.find?_cons_of_neg Item (fun it => it.link == l) x xs hxl, ih seen hl]
    · rw [dedupByLink, if_neg hx]
      by_cases hxl : (x.link == l) = true
      · rw [@List.find?_cons_of_pos Item (fun it => it.link == l) x
            (dedupByLink xs (x.link :: seen)) hxl,
          @List.find?_cons_of_pos Item (fun it => it.link == l) x xs hxl]
      · rw [@List.find?_cons_of_neg Item (fun it => it.link == l) x
            (dedupByLink xs (x.link :: seen)) hxl,
          @List.find?_cons_of_neg Item (fun it => it.link == l) x xs hxl]
        apply ih
        intro hmem
        cases List.mem_cons.mp hmem with
        | inl he => exact hxl (by simp [he.symm])
        | inr hs => exact hl hs

/-- Looking a key up in an association list returns one of its bindings. -/
theorem lookupD_mem (map : List (String × List Item)) (c : String)
    (hc : c ∈ map.map Prod.fst) : (c, lookupD map c []) ∈ map := by
  induction map with
  | nil => simp at hc
  | cons kv rest ih =>
    by_cases h : kv.1 = c
    · have hpos : (fun p => p.1 == c) kv = true := by simp [h]
      rw [lookupD, @List.find?_cons_of_pos (String × List Item) (fun p => p.1 == c) kv rest hpos]
      show (c, kv.2) ∈ kv :: rest
      rw [← h]
      exact List.mem_cons_self kv rest
    · have hneg : ¬(fun p => p.1 == c) kv = true := by simp [h]
      have hlook : lookupD (kv :: rest) c [] = lookupD rest c [] := by
        rw [lookupD,
          @List.find?_cons_of_neg (String × List Item) (fun p => p.1 == c) kv rest hneg, lookupD]
      rw [hlook]
      right
      apply ih
      simp only [List.map_cons, List.mem_cons] at hc
      cases hc with
      | inl he => exact absurd he.symm h
      | inr hs => exact hs

/-- Any element of the top-3 of a category present in the map occurs in the
sweep stream of `build_home`. -/
theorem mem_sweepSeq (map : List (String × List Item)) (c : String) (x : Item)
    (hc : c ∈ map.map Prod.fst) (hx : x ∈ (lookupD map c []).take 3) :
    x ∈ sweepSeq map := by
  unfold sweepSeq
  by_cases ho : c ∈ CATEGORY_ORDER
  · exact List.mem_append_left _ (List.mem_flatMap.mpr ⟨c, ho, hx⟩)
  · refine List.mem_append_right _ (List.mem_flatMap.mpr ⟨(c, lookupD map c []), ?_, hx⟩)
    refine List.mem_filter.mpr ⟨lookupD_mem map c hc, ?_⟩
    simpa using ho

/-! ## C4 — homepage dedup -/

/-- C4 (amended): when a non-empty link occurs in the top-3 of two distinct
categories of the map, the deduplicated card list of `build_home` contains
exactly one item with that link, namely the first one encountered in the
sweep order; the homepage output is that list sorted by timestamp
descending and truncated to 27 items (so the final page shows the item at
most once, and can drop it when 27 newer cards exist). -/
theorem C4_home_dedup (map : List (String × List Item)) (l c1 c2 : String)
    (_hl : l ≠ "") (_hcc : c1 ≠ c2)
    (h1 : c1 ∈ map.map Prod.fst) (_h2 : c2 ∈ map.map Prod.fst)
    (hm1 : l ∈ ((lookupD map c1 []).take 3).map Item.link)
    (_hm2 : l ∈ ((lookupD map c2 []).take 3).map Item.link) :
    (homeCards map).countP (fun it => it.link == l) = 1
  ∧ (homeCards map).find? (fun it => it.link == l)
      = (sweepSeq map).find? (fun it => it.link == l)
  ∧ build_home map = ((homeCards map).insertionSort tsGe).take 27
  ∧ (build_home map).countP (fun it => it.link == l) ≤ 1 := by
  obtain ⟨x, hxmem, hxlink⟩ := List.mem_map.mp hm1
  have hsweep : x ∈ sweepSeq map := mem_sweepSeq map c1 x h1 hxmem
  have hpos : 0 < (sweepSeq map).countP (fun it => it.link == l) := by
    rw [List.countP_pos]
    exact ⟨x, hsweep, by simp [hxlink]⟩
  have hcount : (homeCards map).countP (fun it => it.link == l) = 1 := by
    rw [homeCards, dedupByLink_countP l (sweepSeq map) []]
    simp only [List.not_mem_nil, if_false]
    omega
  refine ⟨hcount, dedupByLink_find? l (sweepSeq map) [] (by simp), rfl, ?_⟩
  calc (build_home map).countP (fun it => it.link == l)
      ≤ ((homeCards map).insertionSort tsGe).countP (fun it => it.link == l) :=
        (List.take_sublist _ _).countP_le _
    _ = (homeCards map).countP (fun it => it.link == l) :=
        (List.perm_insertionSort tsGe _).countP_eq _
    _ ≤ 1 := le_of_eq hcount

/-! ## C10 — empty links are deduplicated too -/

/-- C10: the homepage list contains at most one item whose link is the
empty string — the empty link enters the seen-set on first encounter like
any other link. -/
theorem C10_empty_link_dedup (map : List (String × List Item)) :
    (build_home map).countP (fun it => it.link == "") ≤ 1 := by
  have hcards : (homeCards map).countP (fun it => it.link == "") ≤ 1 := by
    rw [homeCards, dedupByLink_countP "" (sweepSeq map) []]
    simp only [List.not_mem_nil, if_false]
    omega
  calc (build_home map).countP (fun it => it.link == "")
      ≤ ((homeCards map).insertionSort tsGe).countP (fun it => it.link == "") :=
        (List.take_sublist _ _).countP_le _
    _ = (homeCards map).countP (fun it => it.link == "") :=
        (List.perm_insertionSort tsGe _).countP_eq _
    _ ≤ 1 := hcards

/-- Counterexample to C4 as stated: on `cexHomeMap` the link `"dup"` occurs
in two categories' top-3 lists, yet the homepage output contains it zero
times, not exactly once — the 27-item truncation drops it because 27 newer
cards exist. -/
theorem C4_counterexample :
    "dup" ≠ ""
  ∧ ("AI News" : String) ≠ "Gaming"
  ∧ "AI News" ∈ cexHomeMap.map Prod.fst
  ∧ "Gaming" ∈ cexHomeMap.map Prod.fst
  ∧ "dup" ∈ ((lookupD cexHomeMap "AI News" []).take 3).map Item.link
  ∧ "dup" ∈ ((lookupD cexHomeMap "Gaming" []).take 3).map Item.link
  ∧ (build_home cexHomeMap).countP (fun it => it.link == "dup") = 0 := by
  decide

/-- Witness for C4 on `witHomeMap`: the shared link survives dedup exactly
once. -/
theorem C4_home_dedup_witness :
    (homeCards witHomeMap).countP (fun it => it.link == "shared") = 1 :=
  (C4_home_dedup witHomeMap "shared" "AI News" "Gaming" (by decide) (by decide) (by decide)
    (by decide) (by decide) (by decide)).1

/-! ## C5 — category ordering and dates -/

/-- `frameRel` preserves the timestamp projection of a list. -/
theorem forall2_frame_ts {l l' : List Item} (h : List.Forall₂ frameRel l l') :
    l'.map Item.ts = l.map Item.ts := by
  induction h with
  | nil => rfl
  | cons hr _ ih =>
    simp only [List.map_cons, ih]
    rw [hr.2.2.2.2.1]

/-- A property depending only on `frameRel`-preserved fields transfers
along the image re-resolution. -/
theorem forall2_frame_transfer {l l' : List Item} (P : Item → Prop)
    (hP : ∀ a b, frameRel a b → P a → P b) (h : List.Forall₂ frameRel l l')
    (hl : ∀ a ∈ l, P a) : ∀ b ∈ l', P b := by
  induction h with
  | nil => intro b hb; simp at hb
  | cons hr hrest ih =>
    intro b hb
    cases List.mem_cons.mp hb with
    | inl he =>
      subst he
      exact hP _ _ hr (hl _ (List.mem_cons_self _ _))
    | inr hs => exact ih (fun a ha => hl a (List.mem_cons_of_mem _ ha)) b hs

/-- In a descending-sorted item list everything after the first zero
timestamp is zero: unknown-timestamp items sort last. -/
theorem pairwise_zeros_last :
    ∀ l : List Item, List.Pairwise tsGe l →
      (l.dropWhile (fun it => it.ts != 0)).all (fun it => it.ts == 0) := by
  intro l
  induction l with
  | nil => intro _; simp
  | cons x rest ih =>
    intro hp
    obtain ⟨hrel, htail⟩ := List.pairwise_cons.mp hp
    by_cases hx : x.ts = 0
    · have hcond : (x.ts != 0) = false := by simp [hx]
      simp only [List.dropWhile_cons, hcond, Bool.false_eq_true, if_false, List.all_eq_true]
      intro y hy
      cases List.mem_cons.mp hy with
      | inl he =>
        subst he
        simp [hx]
      | inr hs =>
        have hle : y.ts ≤ x.ts := hrel y hs
        simp only [beq_iff_eq]
        omega
    · have hcond : (x.ts != 0) = true := by simp [hx]
      simp only [List.dropWhile_cons, hcond, if_true]
      exact ih htail

/-- C5: `build_category` returns items sorted by timestamp descending with
unknown (0) timestamps last; an item's formatted date is empty exactly when
its timestamp is 0; and `parse_time` takes the published time when present,
else the updated time, else 0. -/
theorem C5_category_order (ext : Ext) (metaMap : List (String × MetaEntry))
    (category : String) (urls : List String)
    (hfmt : ∀ t, t ≠ 0 → ext.strftime t ≠ "") :
    List.Pairwise tsGe (build_category ext metaMap category urls)
  ∧ (∀ it ∈ build_category ext metaMap category urls, (it.date = "" ↔ it.ts = 0))
  ∧ ((build_category ext metaMap category urls).dropWhile (fun it => it.ts != 0)).all
      (fun it => it.ts == 0)
  ∧ (∀ e : RawEntry, parse_time e
      = match e.published_parsed with
        | some t => t
        | none => e.updated_parsed.getD 0) := by
  set base := urls.flatMap (fun url =>
    match ext.fetch url with
    | Except.error _ => []
    | Except.ok feed => (feed.entries.take 12).map (mkItem ext category feed.ftitle)) with hbase
  set sorted := base.insertionSort tsGe with hsorted
  have hout : build_category ext metaMap category urls
      = assign_unique_images sorted (resolveSlug ext metaMap category) := rfl
  have hf2 : List.Forall₂ frameRel sorted
      (assign_unique_images sorted (resolveSlug ext metaMap category)) :=
    assignGoC_forall2 _ sorted 0
  have hsort : List.Pairwise tsGe sorted := List.sorted_insertionSort tsGe base
  have hpw : List.Pairwise tsGe (build_category ext metaMap category urls) := by
    rw [hout]
    have hmap := forall2_frame_ts hf2
    have h1 : List.Pairwise (fun a b : Nat => b ≤ a)
        ((assign_unique_images sorted (resolveSlug ext metaMap category)).map Item.ts) := by
      rw [hmap]
      exact (List.pairwise_map).mpr hsort
    have h2 : List.Pairwise (fun a b : Item => b.ts ≤ a.ts)
        (assign_unique_images sorted (resolveSlug ext metaMap category)) :=
      List.pairwise_map.mp h1
    exact h2
  refine ⟨hpw, ?_, pairwise_zeros_last _ hpw, ?_⟩
  · rw [hout]
    apply forall2_frame_transfer (fun it => (it.date = "" ↔ it.ts = 0))
      (fun a b hr hp => by rw [hr.2.2.2.2.2.1, hr.2.2.2.2.1]; exact hp) hf2
    intro a ha
    have ha2 : a ∈ base := (List.perm_insertionSort tsGe base).mem_iff.mp ha
    obtain ⟨url, _, hmem⟩ := List.mem_flatMap.mp ha2
    cases hf : ext.fetch url with
    | error _ =>
      rw [hf] at hmem
      simp at hmem
    | ok feed =>
      rw [hf] at hmem
      obtain ⟨e, _, rfl⟩ := List.mem_map.mp hmem
      show fmt_date ext.strftime (parse_time e) = "" ↔ parse_time e = 0
      unfold fmt_date
      by_cases hz : parse_time e = 0
      · simp [hz]
      · simp only [hz, beq_iff_eq, if_neg hz, iff_false]
        exact hfmt _ hz
  · intro e
    unfold parse_time
    cases e.published_parsed with
    | some t => rfl
    | none =>
      cases e.updated_parsed with
      | some t => rfl
      | none => rfl

/-- Witness for C5: the end-to-end scenario of the claim — timestamps
[100, 50, 0] come out in that order, the unknown item's date is empty. -/
theorem C5_category_order_witness :
    ((build_category witExt [] "AI News" ["http://feed-a"]).map Item.ts = [100, 50, 0])
  ∧ ((build_category witExt [] "AI News" ["http://feed-a"]).map Item.date
      = ["January 01, 1970", "January 01, 1970", ""])
  ∧ List.Pairwise tsGe (build_category witExt [] "AI News" ["http://feed-a"]) :=
  ⟨by decide, by decide,
    (C5_category_order witExt [] "AI News" ["http://feed-a"]
      (fun t ht => by
        show ("January 01, 1970" : String) ≠ ""
        decide)).1⟩

/-! ## C7 — sentence-count analysis of the summarizer -/

/-- The splitter never returns an empty fragment list. -/
theorem split_sentences_ne_nil (l : List Char) : split_sentences l ≠ [] := by
  match l with
  | [] => simp [split_sentences]
  | [c] => simp [split_sentences]
  | c :: d :: rest =>
    rw [split_sentences]
    by_cases h : (isTermChar c && isSpaceChar d) = true
    · simp [h]
    · simp only [h, Bool.false_eq_true, if_false]
      cases hs : split_sentences (d :: rest) with
      | nil => simp
      | cons p ps => simp

/-- Splitting the empty text yields one empty fragment. -/
theorem split_sentences_nil : split_sentences ([] : List Char) = [[]] := by
  rw [split_sentences]

/-- Splitting a one-character text yields that text whole. -/
theorem split_sentences_single (c : Char) : split_sentences [c] = [[c]] := by
  rw [split_sentences]

/-- Dropping leading whitespace never lengthens a list. -/
theorem length_dropWhile_space_le (l : List Char) :
    (l.dropWhile isSpaceChar).length ≤ l.length := by
  induction l with
  | nil => simp
  | cons c rest ih =>
    rw [List.dropWhile_cons]
    by_cases h : isSpaceChar c = true
    · simp only [h, if_true, List.length_cons]
      omega
    · simp [h]

/-- The first element surviving a whitespace strip is not whitespace. -/
theorem dropWhile_head_not_space :
    ∀ (l : List Char) (x : Char) (xs : List Char),
      l.dropWhile isSpaceChar = x :: xs → isSpaceChar x = false := by
  intro l
  induction l with
  | nil => intro x xs h; simp at h
  | cons c rest ih =>
    intro x xs h
    rw [List.dropWhile_cons] at h
    by_cases hc : isSpaceChar c = true
    · rw [if_pos hc] at h
      exact ih x xs h
    · rw [if_neg hc] at h
      injection h with h1 _
      subst h1
      simpa using hc

/-- A fragment with no internal boundary is returned whole by the
splitter. -/
theorem split_sentences_of_noBoundary (l : List Char) :
    noBoundaryPair l = true → split_sentences l = [l] := by
  induction l with
  | nil => intro _; exact split_sentences_nil
  | cons c tail ih =>
    intro h
    cases tail with
    | nil => exact split_sentences_single c
    | cons d rest =>
      have hsplit : (isTermChar c && isSpaceChar d) = false := by
        cases hb : (isTermChar c && isSpaceChar d)
        · rfl
        · exfalso
          rw [noBoundaryPair, hb] at h
          simp at h
      have htail : noBoundaryPair (d :: rest) = true := by
        rw [noBoundaryPair] at h
        exact ((Bool.and_eq_true _ _).mp h).2
      rw [split_sentences]
      simp only [hsplit, Bool.false_eq_true, if_false, ih htail]

/-- Structural facts about the splitter output: every fragment is free of
internal boundaries; all but the last fragment are non-empty; fragments
after the first start with a non-space character; and the first fragment
starts with the same character as the input. -/
theorem split_parts_ok : ∀ (n : Nat) (l : List Char), l.length ≤ n →
    (∀ p ∈ split_sentences l, noBoundaryPair p = true)
  ∧ innerNE (split_sentences l)
  ∧ (∀ p ∈ (split_sentences l).tail, startsNonSpace p = true)
  ∧ ((split_sentences l).headD []).head? = l.head? := by
  intro n
  induction n with
  | zero =>
    intro l hl
    have hl0 : l = [] := List.length_eq_zero.mp (Nat.le_zero.mp hl)
    subst hl0
    rw [split_sentences_nil]
    refine ⟨?_, ⟨Or.inl rfl, trivial⟩, ?_, rfl⟩
    · intro p hp
      simp only [List.mem_singleton] at hp
      subst hp
      rfl
    · intro p hp
      simp at hp
  | succ n ih =>
    intro l hl
    match l with
    | [] =>
      rw [split_sentences_nil]
      refine ⟨?_, ⟨Or.inl rfl, trivial⟩, ?_, rfl⟩
      · intro p hp
        simp only [List.mem_singleton] at hp
        subst hp
        rfl
      · intro p hp
        simp at hp
    | [c] =>
      rw [split_sentences_single]
      refine ⟨?_, ⟨Or.inl rfl, trivial⟩, ?_, rfl⟩
      · intro p hp
        simp only [List.mem_singleton] at hp
        subst hp
        rfl
      · intro p hp
        simp at hp
    | c :: d :: rest =>
      by_cases hb : (isTermChar c && isSpaceChar d) = true
      · -- boundary: split here, recurse on the whitespace-stripped rest
        have hlen : (rest.dropWhile isSpaceChar).length ≤ n := by
          have h1 := length_dropWhile_space_le rest
          simp only [List.length_cons] at hl
          omega
        obtain ⟨ihP1, ihP2, ihP3, ihP4⟩ := ih (rest.dropWhile isSpaceChar) hlen
        rw [split_sentences]
        simp only [hb, if_true]
        set S := split_sentences (rest.dropWhile isSpaceChar) with hS
        have hSne : S ≠ [] := split_sentences_ne_nil _
        have hShead : startsNonSpace (S.headD []) = true := by
          cases hdw : rest.dropWhile isSpaceChar with
          | nil =>
            rw [hdw] at ihP4
            simp only [List.head?_nil] at ihP4
            cases hhd : S.headD [] with
            | nil => rfl
            | cons x xs =>
              rw [hhd] at ihP4
              simp at ihP4
          | cons x xs =>
            have hx : isSpaceChar x = false := dropWhile_head_not_space rest x xs hdw
            rw [hdw] at ihP4
            simp only [List.head?_cons] at ihP4
            cases hhd : S.headD [] with
            | nil => rfl
            | cons y ys =>
              rw [hhd] at ihP4
              simp only [List.head?_cons, Option.some_inj] at ihP4
              subst ihP4
              simp [startsNonSpace, hx]
        refine ⟨?_, ⟨Or.inr (by simp), ihP2⟩, ?_, by simp⟩
        · intro p hp
          cases List.mem_cons.mp hp with
          | inl he => subst he; rfl
          | inr hs => exact ihP1 p hs
        · intro p hp
          simp only [List.tail_cons] at hp
          cases hSh : S with
          | nil => rw [hSh] at hp; simp at hp
          | cons s0 st =>
            rw [hSh] at hp
            cases List.mem_cons.mp hp with
            | inl he =>
              subst he
              rw [hSh] at hShead
              simpa using hShead
            | inr hs =>
              apply ihP3
              rw [hSh]
              simpa using hs
      · -- no boundary: the head fragment absorbs the leading character
        have hlen : (d :: rest).length ≤ n := by
          simp only [List.length_cons] at hl ⊢
          omega
        obtain ⟨ihP1, ihP2, ihP3, ihP4⟩ := ih (d :: rest) hlen
        rw [split_sentences]
        simp only [hb, Bool.false_eq_true, if_false]
        cases hs : split_sentences (d :: rest) with
        | nil => exact absurd hs (split_sentences_ne_nil _)
        | cons p ps =>
          rw [hs] at ihP1 ihP2 ihP3 ihP4
          simp only [List.headD_cons, List.head?_cons] at ihP4
          have hpne : p ≠ [] := by
            cases p
            · simp at ihP4
            · simp
          obtain ⟨d2, p2, hp2⟩ : ∃ d2 p2, p = d2 :: p2 := by
            cases p with
            | nil => exact absurd rfl hpne
            | cons a b => exact ⟨a, b, rfl⟩
          have hd2 : d2 = d := by
            rw [hp2] at ihP4
            simpa using ihP4
          refine ⟨?_, ⟨?_, ihP2.2⟩, ?_, by simp⟩
          · intro q hq
            cases List.mem_cons.mp hq with
            | inl he =>
              subst he
              rw [hp2, hd2]
              show (!(isTermChar c && isSpaceChar d) && noBoundaryPair (d :: p2)) = true
              rw [Bool.and_eq_true]
              refine ⟨by simp [hb], ?_⟩
              have h3 := ihP1 p (List.mem_cons_self _ _)
              rw [hp2, hd2] at h3
              exact h3
            | inr hs2 => exact ihP1 q (List.mem_cons_of_mem _ hs2)
          · cases hps : ps with
            | nil => exact Or.inl rfl
            | cons q qs => exact Or.inr (by simp)
          · intro q hq
            simp only [List.tail_cons] at hq
            exact ihP3 q hq

/-- Splitting a boundary-free fragment followed by whitespace and more text:
the fragment is cut off and the whitespace run is consumed. -/
theorem split_append_term :
    ∀ (p : List Char), p ≠ [] → endsTermL p = true → noBoundaryPair p = true →
      ∀ (d : Char), isSpaceChar d = true → ∀ (m : List Char),
        split_sentences (p ++ d :: m) = p :: split_sentences (m.dropWhile isSpaceChar) := by
  intro p
  induction p with
  | nil => intro h; exact absurd rfl h
  | cons c tail ih =>
    intro _ hterm hnp d hd m
    cases tail with
    | nil =>
      have hc : isTermChar c = true := by
        rw [endsTermL] at hterm
        simpa using hterm
      show split_sentences (c :: d :: m) = [c] :: split_sentences (m.dropWhile isSpaceChar)
      rw [split_sentences]
      simp [hc, hd]
    | cons c2 p2 =>
      have hterm2 : endsTermL (c2 :: p2) = true := by
        rw [endsTermL] at hterm ⊢
        rw [List.getLast?_cons_cons] at hterm
        exact hterm
      have hnp2 : noBoundaryPair (c2 :: p2) = true := by
        rw [noBoundaryPair] at hnp
        exact ((Bool.and_eq_true _ _).mp hnp).2
      have hhead : (isTermChar c && isSpaceChar c2) = false := by
        rw [noBoundaryPair] at hnp
        have h1 := ((Bool.and_eq_true _ _).mp hnp).1
        cases hb : (isTermChar c && isSpaceChar c2)
        · rfl
        · rw [hb] at h1
          simp at h1
      have ihres := ih (by simp) hterm2 hnp2 d hd m
      simp only [List.cons_append] at ihres ⊢
      rw [split_sentences]
      simp only [hhead, Bool.false_eq_true, if_false, ihres]

/-- Splitting a boundary-free fragment that does not end in terminal
punctuation followed by arbitrary text: the fragment is absorbed into the
first part of the rest. -/
theorem split_append_noterm :
    ∀ (p : List Char), noBoundaryPair p = true → endsTermL p = false →
      ∀ (m : List Char),
        split_sentences (p ++ m)
          = (p ++ (split_sentences m).headD []) :: (split_sentences m).tail := by
  intro p
  induction p with
  | nil =>
    intro _ _ m
    simp only [List.nil_append]
    cases hs : split_sentences m with
    | nil => exact absurd hs (split_sentences_ne_nil m)
    | cons q qs => simp
  | cons c tail ih =>
    intro hnp hterm m
    cases tail with
    | nil =>
      have hc : isTermChar c = false := by
        rw [endsTermL] at hterm
        simpa using hterm
      cases m with
      | nil =>
        rw [List.append_nil, split_sentences_single, split_sentences_nil]
        simp
      | cons d m2 =>
        show split_sentences (c :: d :: m2) = _
        rw [split_sentences]
        simp only [hc, Bool.false_and, Bool.false_eq_true, if_false]
        cases hs : split_sentences (d :: m2) with
        | nil => exact absurd hs (split_sentences_ne_nil _)
        | cons q qs => simp
    | cons c2 p2 =>
      have hterm2 : endsTermL (c2 :: p2) = false := by
        rw [endsTermL] at hterm ⊢
        rw [List.getLast?_cons_cons] at hterm
        exact hterm
      have hnp2 : noBoundaryPair (c2 :: p2) = true := by
        rw [noBoundaryPair] at hnp
        exact ((Bool.and_eq_true _ _).mp hnp).2
      have hhead : (isTermChar c && isSpaceChar c2) = false := by
        rw [noBoundaryPair] at hnp
        have h1 := ((Bool.and_eq_true _ _).mp hnp).1
        cases hb : (isTermChar c && isSpaceChar c2)
        · rfl
        · rw [hb] at h1
          simp at h1
      have ihres := ih hnp2 hterm2 m
      simp only [List.cons_append] at ihres ⊢
      rw [split_sentences]
      simp only [hhead, Bool.false_eq_true, if_false, ihres]

/-- Joining a single fragment is that fragment. -/
theorem joinSp_single (a : List Char) : joinSp [a] = a := by
  simp [joinSp, List.intercalate]

/-- Joining a fragment onto more fragments inserts one space. -/
theorem joinSp_cons (a : List Char) (l : List (List Char)) (h : l ≠ []) :
    joinSp (a :: l) = a ++ ' ' :: joinSp l := by
  cases l with
  | nil => exact absurd rfl h
  | cons b t =>
    simp [joinSp, List.intercalate, List.intersperse_cons_cons]

/-- Unfolding lemma for the non-empty-fragment count. -/
theorem countNE_cons (p : List Char) (ps : List (List Char)) :
    countNE (p :: ps) = (if p.isEmpty then 0 else 1) + countNE ps := by
  rw [countNE, List.filter_cons]
  by_cases h : p.isEmpty = true
  · simp [h, countNE]
  · have hb : p.isEmpty = false := by
      cases hx : p.isEmpty
      · rfl
      · exact absurd hx h
    simp [hb, countNE]
    omega

/-- The sentence count is the non-empty-fragment count of the split. -/
theorem countSentences_eq (l : List Char) :
    countSentences l = countNE (split_sentences l) := rfl

/-- A prefix keeps the all-but-last-non-empty property. -/
theorem innerNE_take : ∀ (l : List (List Char)) (n : Nat), innerNE l → innerNE (l.take n) := by
  intro l
  induction l with
  | nil =>
    intro n _
    simp only [List.take_nil]
    trivial
  | cons f rest ih =>
    intro n h
    cases n with
    | zero => exact trivial
    | succ k =>
      obtain ⟨h1, h2⟩ := h
      refine ⟨?_, ih k h2⟩
      cases h1 with
      | inl he =>
        left
        rw [he]
        simp
      | inr hne => exact Or.inr hne

/-- A list of non-empty fragments has the all-but-last property. -/
theorem innerNE_of_all_ne (fs : List (List Char)) (h : ∀ f ∈ fs, f ≠ []) : innerNE fs := by
  induction fs with
  | nil => trivial
  | cons f rest ih =>
    exact ⟨Or.inr (h f (List.mem_cons_self _ _)),
      ih (fun q hq => h q (List.mem_cons_of_mem _ hq))⟩

/-- Key counting lemma: joining fragments that are boundary-free, non-empty
except possibly the last, and non-space-leading after the first, yields a
text with at most one sentence per fragment. -/
theorem countS_join_le :
    ∀ (fs : List (List Char)), fs ≠ [] →
      (∀ f ∈ fs, noBoundaryPair f = true) → innerNE fs →
      (∀ f ∈ fs.tail, startsNonSpace f = true) →
      countSentences (joinSp fs) ≤ fs.length := by
  intro fs
  induction fs with
  | nil => intro h; exact absurd rfl h
  | cons f fs2 ih =>
    intro _ hnp hinner htail
    cases fs2 with
    | nil =>
      rw [joinSp_single, countSentences_eq,
        split_sentences_of_noBoundary f (hnp f (List.mem_cons_self _ _)), countNE_cons]
      have hif : (if f.isEmpty then 0 else 1) ≤ 1 := by
        by_cases h : f.isEmpty = true
        · simp [h]
        · simp [h]
      have h0 : countNE [] = 0 := rfl
      simp only [List.length_cons, List.length_nil]
      omega
    | cons g rest =>
      have hrec : countSentences (joinSp (g :: rest)) ≤ (g :: rest).length := by
        apply ih (by simp)
        · intro q hq
          exact hnp q (List.mem_cons_of_mem _ hq)
        · exact hinner.2
        · intro q hq
          exact htail q (List.mem_cons_of_mem _ hq)
      rw [joinSp_cons f (g :: rest) (by simp)]
      by_cases ht : endsTermL f = true
      · have hfne : f ≠ [] := by
          obtain ⟨h1, _⟩ := hinner
          cases h1 with
          | inl he => simp at he
          | inr hne => exact hne
        rw [countSentences_eq,
          split_append_term f hfne ht (hnp f (List.mem_cons_self _ _)) ' ' (by decide)
            (joinSp (g :: rest))]
        have hjoin : (joinSp (g :: rest)).dropWhile isSpaceChar = joinSp (g :: rest)
            ∨ joinSp (g :: rest) = [] := by
          cases hg : g with
          | nil =>
            obtain ⟨hg1, _⟩ := hinner.2
            cases hg1 with
            | inl hrest =>
              right
              rw [hrest, joinSp_single]
            | inr hgne => exact absurd hg hgne
          | cons x g2 =>
            left
            have hsns : startsNonSpace g = true := htail g (List.mem_cons_self _ _)
            rw [hg] at hsns
            have hx : isSpaceChar x = false := by
              rw [startsNonSpace] at hsns
              simpa using hsns
            cases rest with
            | nil =>
              rw [joinSp_single, List.dropWhile_cons, hx]
              simp
            | cons b t =>
              rw [joinSp_cons _ (b :: t) (by simp), List.cons_append, List.dropWhile_cons, hx]
              simp
        cases hjoin with
        | inl heq =>
          rw [heq, countNE_cons]
          rw [countSentences_eq] at hrec
          have hif : (if f.isEmpty then 0 else 1) ≤ 1 := by
            by_cases h : f.isEmpty = true
            · simp [h]
            · simp [h]
          simp only [List.length_cons] at hrec ⊢
          omega
        | inr heq =>
          rw [heq]
          simp only [List.dropWhile_nil, split_sentences_nil]
          rw [countNE_cons]
          have hif : (if f.isEmpty then 0 else 1) ≤ 1 := by
            by_cases h : f.isEmpty = true
            · simp [h]
            · simp [h]
          have h0 : countNE [[]] = 0 := rfl
          simp only [List.length_cons]
          omega
      · have htf : endsTermL f = false := by
          cases hx : endsTermL f
          · rfl
          · exact absurd hx ht
        rw [countSentences_eq,
          split_append_noterm f (hnp f (List.mem_cons_self _ _)) htf
            (' ' :: joinSp (g :: rest))]
        have hsp : split_sentences (' ' :: joinSp (g :: rest))
            = (' ' :: (split_sentences (joinSp (g :: rest))).headD [])
                :: (split_sentences (joinSp (g :: rest))).tail := by
          have h2 := split_append_noterm [' '] (by rfl) (by rfl) (joinSp (g :: rest))
          simpa using h2
        rw [hsp]
        simp only [List.headD_cons, List.tail_cons]
        rw [countNE_cons]
        rw [countSentences_eq] at hrec
        have htl : countNE ((split_sentences (joinSp (g :: rest))).tail)
            ≤ countNE (split_sentences (joinSp (g :: rest))) := by
          cases hs : split_sentences (joinSp (g :: rest)) with
          | nil => simp
          | cons q qs =>
            rw [List.tail_cons, countNE_cons]
            omega
        have hif : (if (f ++ ' ' :: (split_sentences (joinSp (g :: rest))).headD []).isEmpty
            then 0 else 1) ≤ 1 := by
          by_cases h : (f ++ ' ' :: (split_sentences (joinSp (g :: rest))).headD []).isEmpty = true
          · simp [h]
          · simp [h]
        simp only [List.length_cons] at hrec ⊢
        omega

/-- For non-empty stripped text and a positive sentence budget, the joined
fragment prefix is non-empty (the first fragment of the split is). -/
theorem fallback_joined_ne (t : List Char) (htne : t ≠ []) (n : Nat) (hn : 1 ≤ n) :
    joinSp ((split_sentences t).take n) ≠ [] := by
  obtain ⟨_, _, _, P4⟩ := split_parts_ok t.length t (le_refl _)
  cases hparts : split_sentences t with
  | nil => exact absurd hparts (split_sentences_ne_nil t)
  | cons p0 ptail =>
    have hp0ne : p0 ≠ [] := by
      rw [hparts] at P4
      simp only [List.headD_cons] at P4
      cases t with
      | nil => exact absurd rfl htne
      | cons c0 t2 =>
        simp only [List.head?_cons] at P4
        cases p0
        · simp at P4
        · simp
    obtain ⟨k, hk⟩ : ∃ k, n = k + 1 := ⟨n - 1, by omega⟩
    rw [hk, List.take_succ_cons]
    cases htk : ptail.take k with
    | nil =>
      rw [joinSp_single]
      exact hp0ne
    | cons q qs =>
      rw [joinSp_cons _ (q :: qs) (by simp)]
      cases p0
      · exact absurd rfl hp0ne
      · simp

/-- Sentence-count bound for the joined fragment prefix. -/
theorem joined_count_le (t : List Char) (htne : t ≠ []) (n : Nat) :
    countSentences (joinSp ((split_sentences t).take n)) ≤ n := by
  obtain ⟨P1, P2, P3, _⟩ := split_parts_ok t.length t (le_refl _)
  by_cases hn0 : n = 0
  · subst hn0
    simp only [List.take_zero]
    have h0 : joinSp [] = [] := rfl
    rw [h0, countSentences_eq, split_sentences_nil]
    have h1 : countNE [[]] = 0 := rfl
    omega
  · have hne : (split_sentences t).take n ≠ [] := by
      cases hparts : split_sentences t with
      | nil => exact absurd hparts (split_sentences_ne_nil t)
      | cons p0 ptail =>
        obtain ⟨k, hk⟩ : ∃ k, n = k + 1 := ⟨n - 1, by omega⟩
        rw [hk, List.take_succ_cons]
        simp
    have hcount := countS_join_le ((split_sentences t).take n) hne
      (fun q hq => P1 q (List.take_subset _ _ hq))
      (innerNE_take _ _ P2)
      (by
        intro q hq
        apply P3
        cases hparts : split_sentences t with
        | nil => exact absurd hparts (split_sentences_ne_nil t)
        | cons p0 ptail =>
          rw [hparts] at hq
          obtain ⟨k, hk⟩ : ∃ k, n = k + 1 := ⟨n - 1, by omega⟩
          rw [hk, List.take_succ_cons, List.tail_cons] at hq
          simp only [List.tail_cons]
          exact List.take_subset _ _ hq)
    calc countSentences (joinSp ((split_sentences t).take n))
        ≤ ((split_sentences t).take n).length := hcount
      _ ≤ n := by
          rw [List.length_take]
          exact min_le_left _ _

/-- With non-empty input and a positive budget, the fallback returns the
joined prefix (the 280-character truncation branch is unreachable). -/
theorem summarize_fallback_eq_joined (t : List Char) (htne : t ≠ []) (n : Nat) (hn : 1 ≤ n) :
    summarize_fallback t n = joinSp ((split_sentences t).take n) := by
  have hje : (joinSp ((split_sentences t).take n)).isEmpty = false := by
    cases hj : joinSp ((split_sentences t).take n) with
    | nil => exact absurd hj (fallback_joined_ne t htne n hn)
    | cons a b => rfl
  simp only [summarize_fallback, hje, Bool.false_eq_true, if_false]

/-- The standalone fallback agrees with the build-script fallback away from
the truncation branch. -/
theorem summarize_fallback_standalone_eq_joined (t : List Char) (htne : t ≠ [])
    (n : Nat) (hn : 1 ≤ n) :
    summarize_fallback_standalone t n = joinSp ((split_sentences t).take n) := by
  have hje : (joinSp ((split_sentences t).take n)).isEmpty = false := by
    cases hj : joinSp ((split_sentences t).take n) with
    | nil => exact absurd hj (fallback_joined_ne t htne n hn)
    | cons a b => rfl
  simp only [summarize_fallback_standalone, hje, Bool.false_eq_true, if_false]

/-- Sentence-count bound for the build-script fallback. -/
theorem fallback_count_le (t : List Char) (htne : t ≠ []) (n : Nat) (hn : 1 ≤ n) :
    countSentences (summarize_fallback t n) ≤ n := by
  rw [summarize_fallback_eq_joined t htne n hn]
  exact joined_count_le t htne n

/-- Sentence-count bound for the standalone fallback. -/
theorem fallback_standalone_count_le (t : List Char) (htne : t ≠ []) (n : Nat) (hn : 1 ≤ n) :
    countSentences (summarize_fallback_standalone t n) ≤ n := by
  rw [summarize_fallback_standalone_eq_joined t htne n hn]
  exact joined_count_le t htne n

/-- C7 (amended): for a sentence budget of at least one, and a primary
summarizer that returns at most the requested number of non-empty,
whitespace-trimmed sentences with no internal sentence boundary, both
copies of `summarize_text` return at most the requested number of
sentences; empty (or whitespace-only) input yields the empty string without
consulting the primary; and a primary failure degrades to the fallback
(which joins the first n sentence fragments, else truncates to 280
characters) rather than propagating. -/
theorem C7_summarizer_amended
    (primary : List Char → Nat → Except Unit (List (List Char)))
    (text : List Char) (n : Nat) (hn : 1 ≤ n)
    (hp : ∀ t k res, primary t k = Except.ok res →
        res.length ≤ k ∧ ∀ f ∈ res, f ≠ [] ∧ startsNonSpace f = true ∧ noBoundaryPair f = true) :
    countSentences (summarize_text primary text n) ≤ n
  ∧ countSentences (summarize_text_standalone primary text n) ≤ n
  ∧ (stripL text = [] →
      ∀ q, summarize_text q text n = [] ∧ summarize_text_standalone q text n = [])
  ∧ (stripL text ≠ [] → primary (stripL text) n = Except.error () →
      summarize_text primary text n = summarize_fallback (stripL text) n) := by
  have hcount0 : countSentences ([] : List Char) = 0 := by
    rw [countSentences_eq, split_sentences_nil]
    rfl
  by_cases hte : stripL text = []
  · have hie : (stripL text).isEmpty = true := by rw [hte]; rfl
    have hred : ∀ (q : List Char → Nat → Except Unit (List (List Char))),
        summarize_text q text n = [] := by
      intro q
      simp only [summarize_text, hie, if_true]
    have hred2 : ∀ (q : List Char → Nat → Except Unit (List (List Char))),
        summarize_text_standalone q text n = [] := by
      intro q
      simp only [summarize_text_standalone, hie, if_true]
    refine ⟨?_, ?_, fun _ q => ⟨hred q, hred2 q⟩, fun h => absurd hte h⟩
    · rw [hred primary, hcount0]
      omega
    · rw [hred2 primary, hcount0]
      omega
  · have hie : (stripL text).isEmpty = false := by
      cases hx : stripL text with
      | nil => exact absurd hx hte
      | cons a b => rfl
    have hfail : primary (stripL text) n = Except.error () →
        summarize_text primary text n = summarize_fallback (stripL text) n := by
      intro h2
      simp only [summarize_text, hie, Bool.false_eq_true, if_false, h2]
    refine ⟨?_, ?_, fun h _ => absurd h hte, fun _ => hfail⟩
    · simp only [summarize_text, hie, Bool.false_eq_true, if_false]
      cases hpr : primary (stripL text) n with
      | error e => exact fallback_count_le _ hte n hn
      | ok res =>
        by_cases hr : res.isEmpty = true
        · simp only [hr, if_true]
          exact fallback_count_le _ hte n hn
        · have hrne : res ≠ [] := by
            cases res
            · simp at hr
            · simp
          simp only [hr, Bool.false_eq_true, if_false]
          obtain ⟨hlen, hfr⟩ := hp (stripL text) n res hpr
          have hc := countS_join_le res hrne (fun q hq => (hfr q hq).2.2)
            (innerNE_of_all_ne res (fun q hq => (hfr q hq).1))
            (by
              intro q hq
              cases res with
              | nil => simp at hq
              | cons r0 rt =>
                simp only [List.tail_cons] at hq
                exact (hfr q (List.mem_cons_of_mem _ hq)).2.1)
          omega
    · simp only [summarize_text_standalone, hie, Bool.false_eq_true, if_false]
      cases hpr : primary (stripL text) n with
      | error e => exact fallback_standalone_count_le _ hte n hn
      | ok res =>
        by_cases hr : res.isEmpty = true
        · simp only [hr, if_true]
          exact fallback_standalone_count_le _ hte n hn
        · have hrne : res ≠ [] := by
            cases res
            · simp at hr
            · simp
          simp only [hr, Bool.false_eq_true, if_false]
          obtain ⟨hlen, hfr⟩ := hp (stripL text) n res hpr
          have hc := countS_join_le res hrne (fun q hq => (hfr q hq).2.2)
            (innerNE_of_all_ne res (fun q hq => (hfr q hq).1))
            (by
              intro q hq
              cases res with
              | nil => simp at hq
              | cons r0 rt =>
                simp only [List.tail_cons] at hq
                exact (hfr q (List.mem_cons_of_mem _ hq)).2.1)
          omega

/-- Evaluation of the splitter on the witness text. -/
theorem split_ABC :
    split_sentences ['A', '.', ' ', 'B', '.', ' ', 'C', '.']
      = [['A', '.'], ['B', '.'], ['C', '.']] := by
  have h3 : split_sentences ['C', '.'] = [['C', '.']] :=
    split_sentences_of_noBoundary _ (by decide)
  have h2 : split_sentences ['B', '.', ' ', 'C', '.'] = [['B', '.'], ['C', '.']] := by
    have hh := split_append_term ['B', '.'] (by decide) (by decide) (by decide)
      ' ' (by decide) ['C', '.']
    have heq : ['B', '.'] ++ ' ' :: ['C', '.'] = ['B', '.', ' ', 'C', '.'] := rfl
    rw [heq] at hh
    have hdw : (['C', '.'] : List Char).dropWhile isSpaceChar = ['C', '.'] := by decide
    rw [hdw, h3] at hh
    exact hh
  have hh := split_append_term ['A', '.'] (by decide) (by decide) (by decide)
    ' ' (by decide) ['B', '.', ' ', 'C', '.']
  have heq : ['A', '.'] ++ ' ' :: ['B', '.', ' ', 'C', '.']
      = ['A', '.', ' ', 'B', '.', ' ', 'C', '.'] := rfl
  rw [heq] at hh
  have hdw : (['B', '.', ' ', 'C', '.'] : List Char).dropWhile isSpaceChar
      = ['B', '.', ' ', 'C', '.'] := by decide
  rw [hdw, h2] at hh
  exact hh

/-- Witness for C7 at a concrete failing primary and text. -/
theorem C7_summarizer_amended_witness :
    countSentences (summarize_text (fun _ _ => Except.error ()) "A. B. C.".data 2) ≤ 2
  ∧ summarize_text (fun _ _ => Except.error ()) "A. B. C.".data 2 = "A. B.".data := by
  constructor
  · exact (C7_summarizer_amended (fun _ _ => Except.error ()) "A. B. C.".data 2 (by decide)
      (fun t k res h => nomatch h)).1
  · show summarize_text (fun _ _ => Except.error ()) ['A', '.', ' ', 'B', '.', ' ', 'C', '.'] 2
      = ['A', '.', ' ', 'B', '.']
    have hst : stripL ['A', '.', ' ', 'B', '.', ' ', 'C', '.']
        = ['A', '.', ' ', 'B', '.', ' ', 'C', '.'] := by decide
    have hie : (stripL ['A', '.', ' ', 'B', '.', ' ', 'C', '.']).isEmpty = false := by
      rw [hst]
      rfl
    simp only [summarize_text, hie, Bool.false_eq_true, if_false, hst]
    simp only [summarize_fallback, split_ABC]
    have htk : List.take 2 [['A', '.'], ['B', '.'], ['C', '.']] = [['A', '.'], ['B', '.']] := rfl
    rw [htk]
    have hj : joinSp [['A', '.'], ['B', '.']] = ['A', '.', ' ', 'B', '.'] := by decide
    rw [hj]
    decide

/-- Counterexample to C7 as stated: with a requested sentence count of 0
(and the primary unavailable) the fallback's join is empty, so the code
returns the 280-character truncation — one sentence, not zero. -/
theorem C7_counterexample :
    summarize_text (fun _ _ => Except.error ()) "Hello world.".data 0 = "Hello world.".data
  ∧ ¬ countSentences (summarize_text (fun _ _ => Except.error ()) "Hello world.".data 0) ≤ 0 := by
  have hsplit : split_sentences ['H', 'e', 'l', 'l', 'o', ' ', 'w', 'o', 'r', 'l', 'd', '.']
      = [['H', 'e', 'l', 'l', 'o', ' ', 'w', 'o', 'r', 'l', 'd', '.']] :=
    split_sentences_of_noBoundary _ (by decide)
  have hval : summarize_text (fun _ _ => Except.error ())
      ['H', 'e', 'l', 'l', 'o', ' ', 'w', 'o', 'r', 'l', 'd', '.'] 0
      = ['H', 'e', 'l', 'l', 'o', ' ', 'w', 'o', 'r', 'l', 'd', '.'] := by
    have hst : stripL ['H', 'e', 'l', 'l', 'o', ' ', 'w', 'o', 'r', 'l', 'd', '.']
        = ['H', 'e', 'l', 'l', 'o', ' ', 'w', 'o', 'r', 'l', 'd', '.'] := by decide
    have hie : (stripL ['H', 'e', 'l', 'l', 'o', ' ', 'w', 'o', 'r', 'l', 'd', '.']).isEmpty
        = false := by
      rw [hst]
      rfl
    simp only [summarize_text, hie, Bool.false_eq_true, if_false, hst]
    simp only [summarize_fallback, hsplit]
    have htk : List.take 0 [['H', 'e', 'l', 'l', 'o', ' ', 'w', 'o', 'r', 'l', 'd', '.']]
        = ([] : List (List Char)) := rfl
    rw [htk]
    have hj : joinSp ([] : List (List Char)) = [] := rfl
    rw [hj]
    decide
  refine ⟨hval, ?_⟩
  show ¬ countSentences (summarize_text (fun _ _ => Except.error ())
      ['H', 'e', 'l', 'l', 'o', ' ', 'w', 'o', 'r', 'l', 'd', '.'] 0) ≤ 0
  rw [hval, countSentences_eq, hsplit]
  decide

end TechBrief
